import Mathlib

/-!
Verification of the CTL formula translation engine of the CTLAnalysisTool
repository, as implemented in
`assets/benchmark/dataset_scripts/extractMCC.py` (symbolic dialect, opaque
atomic-proposition policy, proposition interning) and
`assets/benchmark/dataset_scripts/prepare_dataset.py` (dialect-configurable
translator with structural atomic-proposition policy).

The XML element trees that `xml.etree.ElementTree` hands to the Python code
are embedded as the inductive type `Node` below (tag, optional text, ordered
children).  Python exceptions are embedded as the `PyError` type: the
`ValueError` raised for unknown tags becomes `PyError.translationError`,
unguarded list indexing becomes `PyError.indexError`, and calling `.find` on
`None` (the until-operand lookup) becomes `PyError.attributeError`.  The
mutable `CTLParser` object state (`propositions_map`, `prop_counter`) is
threaded explicitly as the `Interner` structure; every function returns its
final state even when it fails, because a raised Python exception does not
roll back the mutations performed before the raise.
-/

namespace CTLTool

/-- An XML element as seen by the Python translator: a namespace-qualified
tag, optional text content, and an ordered list of child elements. -/
inductive Node where
  | mk (tag : String) (text : Option String) (children : List Node)

/-- The tag of an element (`node.tag` in Python). -/
def Node.tag : Node → String
  | .mk t _ _ => t

/-- The text content of an element (`node.text` in Python, `None` ↦ `none`). -/
def Node.text : Node → Option String
  | .mk _ t _ => t

/-- The ordered children of an element (`list(node)` in Python). -/
def Node.children : Node → List Node
  | .mk _ _ c => c

/-- The Python exceptions the translation engine can raise. -/
inductive PyError where
  | translationError (msg : String)
  | indexError
  | attributeError
deriving DecidableEq

/-- The XML namespace used in MCC property files (`MCC_NAMESPACE`). -/
def MCC_NAMESPACE : String := "http://mcc.lip6.fr/"

/-- `CTLParser._tag`: prepend the MCC namespace to a tag name, producing the
qualified tag string `\x7bhttp://mcc.lip6.fr/\x7dname` that ElementTree uses. -/
def _tag (tag_name : String) : String :=
  "\x7b" ++ MCC_NAMESPACE ++ "\x7d" ++ tag_name

/-- The namespace wildcard prefix: `find(self._tag("*"))` in Python matches
the first child whose qualified tag starts with this string. -/
def ns_brace : String := "\x7b" ++ MCC_NAMESPACE ++ "\x7d"

/-- Two namespace-qualified tags are equal exactly when the raw names are. -/
@[simp]
theorem _tag_inj {a b : String} : _tag a = _tag b ↔ a = b := by
  constructor
  · intro h
    have hd := congrArg String.data h
    simp only [_tag, String.data_append] at hd
    exact String.ext (List.append_cancel_left hd)
  · intro h
    rw [h]

/-- Model of `ElementTree.Element.find(tag)`: the first direct child with the
given qualified tag, or `none`. -/
def find_child (n : Node) (t : String) : Option Node :=
  n.children.find? (fun c => c.tag == t)

/-- Model of `ElementTree.Element.find("\x7bns\x7d*")`: the first direct child
whose tag lies in the MCC namespace, i.e. whose tag string starts with the
braced namespace prefix (tested on the character lists). -/
def find_ns (cs : List Node) : Option Node :=
  cs.find? (fun c => ns_brace.data.isPrefixOf c.tag.data)

/-- A child whose tag is namespace-qualified is found by the wildcard search
as soon as it heads the child list. -/
theorem find_ns_cons_of_startsWith {c : Node} (l : List Node)
    (h : ns_brace.data.isPrefixOf c.tag.data = true) : find_ns (c :: l) = some c := by
  simp [find_ns, List.find?_cons, h]

mutual
/-- Model of `ElementTree.tostring(node)`: a canonical, context-independent
serialization of the subtree.  The exact byte format of ElementTree is
irrelevant to the code (the string is used only as a dictionary key), so the
serialization is modelled by this straightforward rendering, which likewise
distinguishes any two trees that differ in tag, text or child structure. -/
def tostring : Node → String
  | .mk tag text children =>
      "<" ++ tag ++ ">" ++ text.getD "" ++ tostring_list children ++ "</" ++ tag ++ ">"

/-- Serialization of a list of sibling subtrees, concatenated in order. -/
def tostring_list : List Node → String
  | [] => ""
  | c :: cs => tostring c ++ tostring_list cs
end

/-- The mutable interning state of `extractMCC.CTLParser`: the
insertion-ordered dictionary `propositions_map` (canonical serialization ↦
symbol) and the counter `prop_counter`. -/
structure Interner where
  propositions_map : List (String × String)
  prop_counter : Nat
deriving DecidableEq

/-- A fresh `CTLParser` state: empty map, counter 0 (`CTLParser.__init__`). -/
def Interner.empty : Interner := ⟨[], 0⟩

/-- Python dictionary lookup `m[k]` / `k in m` over the insertion-ordered
association list. -/
def dict_find? {α β : Type} [DecidableEq α] (m : List (α × β)) (k : α) : Option β :=
  match m with
  | [] => none
  | (k', v) :: rest => if k' = k then some v else dict_find? rest k

/-- Python dictionary assignment `m[k] = v`: update the value in place if the
key is present (keeping its original position), otherwise append at the end. -/
def dict_insert {α β : Type} [DecidableEq α] (k : α) (v : β) :
    List (α × β) → List (α × β)
  | [] => [(k, v)]
  | (k', v') :: rest =>
      if k' = k then (k, v) :: rest else (k', v') :: dict_insert k v rest

theorem sizeOf_children_lt (n : Node) : sizeOf n.children < sizeOf n := by
  cases n with
  | mk t tx cs => simp only [Node.children, Node.mk.sizeOf_spec]; omega

theorem sizeOf_head_lt {n : Node} {c : Node} {l : List Node}
    (h : n.children = c :: l) : sizeOf c < sizeOf n := by
  have h1 := sizeOf_children_lt n
  rw [h] at h1
  have : sizeOf c < sizeOf (c :: l) := by simp only [List.cons.sizeOf_spec]; omega
  omega

theorem sizeOf_tail_lt {n : Node} {c : Node} {l : List Node}
    (h : n.children = c :: l) : sizeOf l < sizeOf n := by
  have h1 := sizeOf_children_lt n
  rw [h] at h1
  have : sizeOf l < sizeOf (c :: l) := by simp only [List.cons.sizeOf_spec]; omega
  omega

theorem sizeOf_second_lt {n : Node} {a b : Node} {l : List Node}
    (h : n.children = a :: b :: l) : sizeOf b < sizeOf n := by
  have h1 := sizeOf_children_lt n
  rw [h] at h1
  have : sizeOf b < sizeOf (a :: b :: l) := by
    simp only [List.cons.sizeOf_spec]; omega
  omega

theorem sizeOf_find_ns_lt {w : Node} {cs : List Node} (h : find_ns cs = some w) :
    sizeOf w < sizeOf cs :=
  List.sizeOf_lt_of_mem (List.mem_of_find?_eq_some h)

theorem dict_insert_not_mem {α β : Type} [DecidableEq α] {k : α} (v : β)
    {m : List (α × β)} (h : k ∉ m.map Prod.fst) :
    dict_insert k v m = m ++ [(k, v)] := by
  induction m with
  | nil => rfl
  | cons kv rest ih =>
    obtain ⟨k1, v1⟩ := kv
    simp only [List.map_cons, List.mem_cons, not_or] at h
    rw [dict_insert, if_neg (fun he => h.1 he.symm), ih h.2]
    rfl

theorem foldl_dict_insert_nodup {α β : Type} [DecidableEq α] :
    ∀ (l acc : List (α × β)), (((acc ++ l).map Prod.fst).Nodup) →
      l.foldl (fun d kv => dict_insert kv.1 kv.2 d) acc = acc ++ l := by
  intro l
  induction l with
  | nil => intro acc _; simp
  | cons kv rest ih =>
    intro acc hnd
    have hk : kv.1 ∉ acc.map Prod.fst := by
      intro hmem
      rw [List.map_append] at hnd
      have := (List.nodup_append.mp hnd).2.2
      exact this hmem (by simp)
    rw [List.foldl_cons, dict_insert_not_mem _ hk, ih (acc ++ [kv])
      (by simpa using hnd)]
    simp

/-- Unfolding of `Nat.toDigitsCore` against the digit expansion of a positive
number, for sufficient fuel. -/
theorem toDigitsCore_eq_digits (n : Nat) :
    n ≠ 0 → ∀ (fuel : Nat) (acc : List Char), n < fuel →
      Nat.toDigitsCore 10 fuel n acc =
        ((Nat.digits 10 n).map Nat.digitChar).reverse ++ acc := by
  induction n using Nat.strong_induction_on with
  | _ n ih =>
    intro hn fuel acc hf
    cases fuel with
    | zero => omega
    | succ f =>
      rw [Nat.toDigitsCore]
      by_cases h10 : n / 10 = 0
      · have hlt : n < 10 := by
          by_contra hge
          have : 0 < n / 10 := Nat.div_pos (by omega) (by norm_num)
          omega
        have hd : Nat.digits 10 n = [n] := by
          rw [Nat.digits_def' (by norm_num : (1 : Nat) < 10) (Nat.pos_of_ne_zero hn), h10]
          simp [Nat.mod_eq_of_lt hlt]
        simp only [h10, if_pos, hd, List.map_cons, List.map_nil, List.reverse_cons,
          List.reverse_nil, List.nil_append, List.cons_append, Nat.mod_eq_of_lt hlt]
      · have hdivlt : n / 10 < n := Nat.div_lt_self (Nat.pos_of_ne_zero hn) (by norm_num)
        have hfuel : n / 10 < f := by omega
        have hrec := ih (n / 10) hdivlt h10 f (Nat.digitChar (n % 10) :: acc) hfuel
        simp only [h10, if_neg, ite_false]
        rw [hrec]
        have hdig : Nat.digits 10 n = n % 10 :: Nat.digits 10 (n / 10) :=
          Nat.digits_def' (by norm_num : (1 : Nat) < 10) (Nat.pos_of_ne_zero hn)
        rw [hdig]
        simp

/-- `List.asString` is injective. -/
theorem asString_inj {l1 l2 : List Char} (h : l1.asString = l2.asString) : l1 = l2 := by
  have hd := congrArg String.data h
  simpa [List.asString] using hd

/-- `Nat.digitChar` is injective on digits. -/
theorem digitChar_inj_lt : ∀ a < 10, ∀ b < 10, Nat.digitChar a = Nat.digitChar b → a = b := by
  decide

/-- Mapping `Nat.digitChar` over digit lists is injective. -/
theorem map_digitChar_inj : ∀ l1 l2 : List Nat, (∀ d ∈ l1, d < 10) → (∀ d ∈ l2, d < 10) →
    l1.map Nat.digitChar = l2.map Nat.digitChar → l1 = l2 := by
  intro l1
  induction l1 with
  | nil =>
    intro l2 _ _ h
    cases l2 with
    | nil => rfl
    | cons b t2 => simp at h
  | cons a t ih =>
    intro l2 h1 h2 h
    cases l2 with
    | nil => simp at h
    | cons b t2 =>
      simp only [List.map_cons, List.cons.injEq] at h
      obtain ⟨hab, ht⟩ := h
      have hae : a = b :=
        digitChar_inj_lt a (h1 a (List.mem_cons_self a t)) b (h2 b (List.mem_cons_self b t2)) hab
      subst hae
      rw [ih t2 (fun d hd => h1 d (List.mem_cons_of_mem a hd))
        (fun d hd => h2 d (List.mem_cons_of_mem a hd)) ht]

/-- The decimal rendering `Nat.repr` is injective. -/
theorem nat_repr_injective {m n : Nat} (h : Nat.repr m = Nat.repr n) : m = n := by
  have hdig : ∀ k : Nat, k ≠ 0 →
      Nat.repr k = (((Nat.digits 10 k).map Nat.digitChar).reverse).asString := by
    intro k hk
    show (Nat.toDigits 10 k).asString = _
    rw [Nat.toDigits, toDigitsCore_eq_digits k hk (k + 1) [] (by omega)]
    simp
  have hdigits : ∀ k1 k2 : Nat, Nat.digits 10 k1 = Nat.digits 10 k2 → k1 = k2 := by
    intro k1 k2 hk
    have h1 := Nat.ofDigits_digits 10 k1
    have h2 := Nat.ofDigits_digits 10 k2
    rw [← h1, ← h2, hk]
  by_cases hm : m = 0 <;> by_cases hn : n = 0
  · omega
  · exfalso
    rw [hm, hdig n hn] at h
    have h0 : Nat.repr 0 = ("0".data).asString := rfl
    rw [h0] at h
    have hl := asString_inj h
    have hrev := congrArg List.reverse hl
    simp only [List.reverse_reverse] at hrev
    have : Nat.digits 10 n = [0] := by
      apply map_digitChar_inj
      · intro d hd
        exact Nat.digits_lt_base (by norm_num) hd
      · intro d hd
        simp at hd
        omega
      · rw [← hrev]
        rfl
    have hof := Nat.ofDigits_digits 10 n
    rw [this] at hof
    simp [Nat.ofDigits] at hof
    omega
  · exfalso
    rw [hn, hdig m hm] at h
    have h0 : Nat.repr 0 = ("0".data).asString := rfl
    rw [h0] at h
    have hl := asString_inj h
    have hrev := congrArg List.reverse hl
    simp only [List.reverse_reverse] at hrev
    have : Nat.digits 10 m = [0] := by
      apply map_digitChar_inj
      · intro d hd
        exact Nat.digits_lt_base (by norm_num) hd
      · intro d hd
        simp at hd
        omega
      · rw [hrev]
        rfl
    have hof := Nat.ofDigits_digits 10 m
    rw [this] at hof
    simp [Nat.ofDigits] at hof
    omega
  · rw [hdig m hm, hdig n hn] at h
    have hl := asString_inj h
    have hrev := congrArg List.reverse hl
    simp only [List.reverse_reverse] at hrev
    exact hdigits m n (map_digitChar_inj _ _
      (fun d hd => Nat.digits_lt_base (by norm_num) hd)
      (fun d hd => Nat.digits_lt_base (by norm_num) hd) hrev)

/-- The interned symbols `"p" ++ toString k` are pairwise distinct. -/
theorem prop_symbol_inj {m n : Nat} (h : "p" ++ toString m = "p" ++ toString n) :
    m = n := by
  have hd := congrArg String.data h
  simp only [String.data_append] at hd
  have hdata := List.append_cancel_left hd
  have hstr : toString m = toString n := String.ext hdata
  exact nat_repr_injective hstr

theorem dict_find?_eq_none {α β : Type} [DecidableEq α] (m : List (α × β)) (k : α) :
    dict_find? m k = none ↔ k ∉ m.map Prod.fst := by
  induction m with
  | nil => simp [dict_find?]
  | cons kv rest ih =>
    obtain ⟨k1, v1⟩ := kv
    by_cases hk : k1 = k
    · subst hk
      simp [dict_find?]
    · simp only [dict_find?, hk, if_false, ih, List.map_cons, List.mem_cons]
      constructor
      · intro h hor
        rcases hor with h1 | h1
        · exact hk h1.symm
        · exact h h1
      · intro h hm
        exact h (Or.inr hm)

theorem dict_find?_mem {α β : Type} [DecidableEq α] {m : List (α × β)} {k : α} {v : β}
    (h : dict_find? m k = some v) : (k, v) ∈ m := by
  induction m with
  | nil => simp [dict_find?] at h
  | cons kv rest ih =>
    obtain ⟨k1, v1⟩ := kv
    by_cases hk : k1 = k
    · subst hk
      simp [dict_find?] at h
      simp [h]
    · simp [dict_find?, hk] at h
      simp [ih h]

theorem dict_find?_append_of_some {α β : Type} [DecidableEq α] {m : List (α × β)}
    {k : α} {v : β} (m2 : List (α × β)) (h : dict_find? m k = some v) :
    dict_find? (m ++ m2) k = some v := by
  induction m with
  | nil => simp [dict_find?] at h
  | cons kv rest ih =>
    obtain ⟨k1, v1⟩ := kv
    by_cases hk : k1 = k <;> simp [dict_find?, hk] at h ⊢ <;> simp_all [ih]

theorem dict_find?_append_of_none {α β : Type} [DecidableEq α] {m : List (α × β)}
    {k : α} (m2 : List (α × β)) (h : dict_find? m k = none) :
    dict_find? (m ++ m2) k = dict_find? m2 k := by
  induction m with
  | nil => simp
  | cons kv rest ih =>
    obtain ⟨k1, v1⟩ := kv
    by_cases hk : k1 = k <;> simp [dict_find?, hk] at h ⊢ <;> simp_all [ih]

/-- The quantifier tag selected by a Boolean: `all-paths` or `exists-path`. -/
def qtag (allp : Bool) : String :=
  if allp then _tag "all-paths" else _tag "exists-path"

/-- The quantifier letter emitted for a quantifier tag: `A` or `E`. -/
def qletter (allp : Bool) : String :=
  if allp then "A" else "E"

namespace ExtractMCC

/-- `extractMCC.CTLParser._get_prop_id`: canonicalize the node; if the key is
already in `propositions_map` return its symbol, otherwise allocate
`"p" ++ prop_counter`, append the binding, bump the counter, and return the
fresh symbol. -/
def _get_prop_id (st : Interner) (node : Node) : String × Interner :=
  let canonical_key := tostring node
  match dict_find? st.propositions_map canonical_key with
  | some pid => (pid, st)
  | none =>
      let new_id := "p" ++ toString st.prop_counter
      (new_id, ⟨st.propositions_map ++ [(canonical_key, new_id)], st.prop_counter + 1⟩)

mutual
/-- `extractMCC.CTLParser.translate_formula_node`: the recursive translator of
the symbolic dialect with the opaque atomic-proposition policy.  The if-chain
mirrors the Python dispatch order; `translate_tail` is the code after the
path-quantifier block (atomic interning, transparent-wrapper recursion, and
the unknown-tag `ValueError`), reachable both by falling off the end of the
quantifier block and by not entering it. -/
def translate_formula_node (node : Node) (st : Interner) :
    Except PyError String × Interner :=
  if node.tag = _tag "conjunction" then
    match translate_join node.children st with
    | (.ok parts, st') => (.ok ("(" ++ String.intercalate " & " parts ++ ")"), st')
    | (.error e, st') => (.error e, st')
  else if node.tag = _tag "disjunction" then
    match translate_join node.children st with
    | (.ok parts, st') => (.ok ("(" ++ String.intercalate " | " parts ++ ")"), st')
    | (.error e, st') => (.error e, st')
  else if node.tag = _tag "negation" then
    match hneg : node.children with
    | [] => (.error .indexError, st)
    | c :: _ =>
      match translate_formula_node c st with
      | (.ok s, st') => (.ok ("!(" ++ s ++ ")"), st')
      | (.error e, st') => (.error e, st')
  else if node.tag = _tag "all-paths" ∨ node.tag = _tag "exists-path" then
    let quantifier := if node.tag = _tag "all-paths" then "A" else "E"
    match hq : node.children with
    | [] => (.error .indexError, st)
    | op_node :: _ =>
      if op_node.tag = _tag "globally" then
        match hop : op_node.children with
        | [] => (.error .indexError, st)
        | oc :: _ =>
          match translate_formula_node oc st with
          | (.ok s, st') => (.ok (quantifier ++ "G (" ++ s ++ ")"), st')
          | (.error e, st') => (.error e, st')
      else if op_node.tag = _tag "finally" then
        match hop : op_node.children with
        | [] => (.error .indexError, st)
        | oc :: _ =>
          match translate_formula_node oc st with
          | (.ok s, st') => (.ok (quantifier ++ "F (" ++ s ++ ")"), st')
          | (.error e, st') => (.error e, st')
      else if op_node.tag = _tag "next" then
        match hop : op_node.children with
        | [] => (.error .indexError, st)
        | oc :: _ =>
          match translate_formula_node oc st with
          | (.ok s, st') => (.ok (quantifier ++ "(false W (" ++ s ++ "))"), st')
          | (.error e, st') => (.error e, st')
      else if op_node.tag = _tag "until" then
        match hu : op_node.children with
        | [] => (.error .indexError, st)
        | a_node :: op_rest =>
          match h1 : find_ns a_node.children with
          | none => (.error .attributeError, st)
          | some w1 =>
            match translate_formula_node w1 st with
            | (.error e, st') => (.error e, st')
            | (.ok before_expr, st') =>
              match op_rest with
              | [] => (.error .indexError, st')
              | b_node :: _ =>
                match h2 : find_ns b_node.children with
                | none => (.error .attributeError, st')
                | some w2 =>
                  match translate_formula_node w2 st' with
                  | (.error e, st'') => (.error e, st'')
                  | (.ok reach_expr, st'') =>
                      (.ok (quantifier ++ "(" ++ before_expr ++ " U " ++ reach_expr ++ ")"),
                        st'')
      else
        translate_tail node st
  else
    translate_tail node st
termination_by (sizeOf node, 1)
decreasing_by
  all_goals simp_wf
  all_goals
  first
  | (apply Prod.Lex.right; omega)
  | (apply Prod.Lex.left; exact sizeOf_children_lt _)
  | (apply Prod.Lex.left; exact sizeOf_head_lt hneg)
  | (apply Prod.Lex.left;
     have u1 := sizeOf_head_lt hq;
     first
     | (have u2 := sizeOf_head_lt hop; omega)
     | (have u2 := sizeOf_head_lt hu;
        first
        | (have u3 := sizeOf_find_ns_lt h1; have u4 := sizeOf_children_lt a_node; omega)
        | (have u3 := sizeOf_second_lt hu;
           have u5 := sizeOf_find_ns_lt h2;
           have u6 := sizeOf_children_lt b_node; omega))
     | omega)

/-- The base-case code of `extractMCC.CTLParser.translate_formula_node`:
atomic tags are handed whole to `_get_prop_id`; an unrecognized tag recurses
into its first child if it has one and otherwise raises
`ValueError(f"Unknown or unhandled XML tag: ...")`. -/
def translate_tail (node : Node) (st : Interner) : Except PyError String × Interner :=
  if node.tag = _tag "integer-le" ∨ node.tag = _tag "is-fireable" ∨
      node.tag = _tag "tokens-count" then
    let r := _get_prop_id st node
    (.ok r.1, r.2)
  else
    match htail : node.children with
    | c :: _ => translate_formula_node c st
    | [] => (.error (.translationError ("Unknown or unhandled XML tag: " ++ node.tag)), st)
termination_by (sizeOf node, 0)
decreasing_by
  all_goals simp_wf
  all_goals (apply Prod.Lex.left; exact sizeOf_head_lt htail)

/-- The generator `self.translate_formula_node(c) for c in children` consumed
by `str.join`: children are translated left to right, threading the interner
state; the first exception propagates with the state reached so far. -/
def translate_join : List Node → Interner → Except PyError (List String) × Interner
  | [], st => (.ok [], st)
  | c :: cs, st =>
    match translate_formula_node c st with
    | (.error e, st') => (.error e, st')
    | (.ok s, st') =>
      match translate_join cs st' with
      | (.error e, st'') => (.error e, st'')
      | (.ok rest, st'') => (.ok (s :: rest), st'')
termination_by l _ => (sizeOf l, 0)
decreasing_by
  all_goals simp_wf
  all_goals
  first
  | (apply Prod.Lex.right; omega)
  | (apply Prod.Lex.left; omega)
end

theorem tfn_conj (tx : Option String) (cs : List Node) (st : Interner) :
    translate_formula_node (Node.mk (_tag "conjunction") tx cs) st =
      match translate_join cs st with
      | (.ok parts, st') => (.ok ("(" ++ String.intercalate " & " parts ++ ")"), st')
      | (.error e, st') => (.error e, st') := by
  rw [translate_formula_node.eq_def]
  simp [Node.tag, Node.children, _tag, MCC_NAMESPACE]

theorem tfn_neg_nil (tx : Option String) (st : Interner) :
    translate_formula_node (Node.mk (_tag "negation") tx []) st =
      (.error .indexError, st) := by
  rw [translate_formula_node.eq_def]
  simp [Node.tag, Node.children, _tag, MCC_NAMESPACE]

theorem tfn_quant_nil (allp : Bool) (tx : Option String) (st : Interner) :
    translate_formula_node (Node.mk (qtag allp) tx []) st = (.error .indexError, st) := by
  cases allp <;>
    (rw [translate_formula_node.eq_def]; simp [Node.tag, Node.children, qtag, _tag, MCC_NAMESPACE])

theorem tfn_quant_next (allp : Bool) (tx op_tx : Option String) (oc : Node)
    (ocs rest : List Node) (st : Interner) :
    translate_formula_node
        (Node.mk (qtag allp) tx (Node.mk (_tag "next") op_tx (oc :: ocs) :: rest)) st =
      match translate_formula_node oc st with
      | (.ok s, st') => (.ok (qletter allp ++ "(false W (" ++ s ++ "))"), st')
      | (.error e, st') => (.error e, st') := by
  cases allp <;>
    (rw [translate_formula_node.eq_def]; simp [Node.tag, Node.children, qtag, qletter, _tag, MCC_NAMESPACE])

theorem tfn_quant_until (allp : Bool) (tx op_tx a_tx b_tx : Option String)
    (a_tag b_tag : String) (a_children b_children op_rest rest : List Node)
    (w1 w2 : Node) (st : Interner)
    (h1 : find_ns a_children = some w1) (h2 : find_ns b_children = some w2) :
    translate_formula_node
        (Node.mk (qtag allp) tx
          (Node.mk (_tag "until") op_tx
            (Node.mk a_tag a_tx a_children :: Node.mk b_tag b_tx b_children :: op_rest)
            :: rest)) st =
      match translate_formula_node w1 st with
      | (.error e, st') => (.error e, st')
      | (.ok before_expr, st') =>
        match translate_formula_node w2 st' with
        | (.error e, st'') => (.error e, st'')
        | (.ok reach_expr, st'') =>
            (.ok (qletter allp ++ "(" ++ before_expr ++ " U " ++ reach_expr ++ ")"), st'') := by
  cases allp <;>
  · rw [translate_formula_node.eq_def]
    simp [Node.tag, Node.children, qtag, qletter, _tag, MCC_NAMESPACE]
    split
    next heq => rw [h1] at heq; cases heq
    next w heq =>
      rw [h1] at heq
      injection heq with heq
      subst heq
      cases htr : translate_formula_node w1 st with
      | mk r1 st1 =>
        cases r1 with
        | error e => rfl
        | ok before_expr =>
          dsimp only
          split
          next heq2 => rw [h2] at heq2; cases heq2
          next w2x heq2 =>
            rw [h2] at heq2
            injection heq2 with heq2
            subst heq2
            rfl

theorem tfn_atomic (tag : String) (tx : Option String) (cs : List Node) (st : Interner)
    (h : tag = _tag "integer-le" ∨ tag = _tag "is-fireable" ∨ tag = _tag "tokens-count") :
    translate_formula_node (Node.mk tag tx cs) st =
      (.ok (_get_prop_id st (Node.mk tag tx cs)).1,
        (_get_prop_id st (Node.mk tag tx cs)).2) := by
  have htail : translate_tail (Node.mk tag tx cs) st =
      (.ok (_get_prop_id st (Node.mk tag tx cs)).1,
        (_get_prop_id st (Node.mk tag tx cs)).2) := by
    rw [translate_tail.eq_def]
    rcases h with h | h | h <;> subst h <;>
      simp [Node.tag, Node.children, _tag, MCC_NAMESPACE]
  rw [translate_formula_node.eq_def]
  rcases h with h | h | h <;> subst h <;>
    simpa [Node.tag, Node.children, _tag, MCC_NAMESPACE] using htail

theorem tfn_wrapper (tag : String) (tx : Option String) (c : Node) (cs : List Node)
    (st : Interner)
    (h1 : ¬tag = _tag "conjunction") (h2 : ¬tag = _tag "disjunction")
    (h3 : ¬tag = _tag "negation") (h4 : ¬tag = _tag "all-paths")
    (h5 : ¬tag = _tag "exists-path") (h6 : ¬tag = _tag "integer-le")
    (h7 : ¬tag = _tag "is-fireable") (h8 : ¬tag = _tag "tokens-count") :
    translate_formula_node (Node.mk tag tx (c :: cs)) st = translate_formula_node c st := by
  rw [translate_formula_node.eq_def, translate_tail.eq_def]
  simp [Node.tag, Node.children, h1, h2, h3, h4, h5, h6, h7, h8]

theorem tfn_leaf (tag : String) (tx : Option String) (st : Interner)
    (h1 : ¬tag = _tag "conjunction") (h2 : ¬tag = _tag "disjunction")
    (h3 : ¬tag = _tag "negation") (h4 : ¬tag = _tag "all-paths")
    (h5 : ¬tag = _tag "exists-path") (h6 : ¬tag = _tag "integer-le")
    (h7 : ¬tag = _tag "is-fireable") (h8 : ¬tag = _tag "tokens-count") :
    translate_formula_node (Node.mk tag tx []) st =
      (.error (.translationError ("Unknown or unhandled XML tag: " ++ tag)), st) := by
  rw [translate_formula_node.eq_def, translate_tail.eq_def]
  simp [Node.tag, Node.children, h1, h2, h3, h4, h5, h6, h7, h8]

/-- The interner state after a sequence of `_get_prop_id` calls, in call
order: the pre-order first-occurrence traversal of one translation session is
such a sequence. -/
def run_intern (st : Interner) : List Node → Interner
  | [] => st
  | n :: ns => run_intern (_get_prop_id st n).2 ns

/-- The symbols returned by a sequence of `_get_prop_id` calls, in order. -/
def intern_results (st : Interner) : List Node → List String
  | [] => []
  | n :: ns => (_get_prop_id st n).1 :: intern_results (_get_prop_id st n).2 ns

/-- Invariant of reachable interner states: the counter equals the table
size, the binding at position k carries the symbol `p(k)`, and keys are
pairwise distinct. -/
def Wf (st : Interner) : Prop :=
  st.prop_counter = st.propositions_map.length ∧
  (∀ (k : Nat) (h : k < st.propositions_map.length),
      (st.propositions_map[k]).2 = "p" ++ toString k) ∧
  (st.propositions_map.map Prod.fst).Nodup

theorem wf_empty : Wf Interner.empty := by
  refine ⟨rfl, ?_, by simp [Interner.empty]⟩
  intro k h
  simp [Interner.empty] at h

theorem wf_get_prop_id {st : Interner} (hwf : Wf st) (n : Node) :
    Wf (_get_prop_id st n).2 := by
  obtain ⟨hc, hv, hk⟩ := hwf
  simp only [_get_prop_id]
  cases hfind : dict_find? st.propositions_map (tostring n) with
  | some pid => exact ⟨hc, hv, hk⟩
  | none =>
    refine ⟨by simp [hc], ?_, ?_⟩
    · intro k h
      simp only [List.length_append, List.length_cons, List.length_nil] at h
      by_cases hlt : k < st.propositions_map.length
      · rw [List.getElem_append_left hlt]
        exact hv k hlt
      · have hkeq : k = st.propositions_map.length := by omega
        subst hkeq
        rw [List.getElem_append_right (Nat.le_refl _)]
        simp [hc]
    · rw [List.map_append]
      refine List.Nodup.append hk (by simp) ?_
      simp only [List.map_cons, List.map_nil]
      rw [List.disjoint_singleton]
      exact (dict_find?_eq_none _ _).mp hfind

theorem get_prop_id_lookup (st : Interner) (n : Node) :
    dict_find? ((_get_prop_id st n).2).propositions_map (tostring n) =
      some ((_get_prop_id st n).1) := by
  simp only [_get_prop_id]
  cases hfind : dict_find? st.propositions_map (tostring n) with
  | some pid => simpa using hfind
  | none =>
    simp only
    rw [dict_find?_append_of_none _ hfind]
    simp [dict_find?]

theorem get_prop_id_counter_le (st : Interner) (n : Node) :
    st.prop_counter ≤ ((_get_prop_id st n).2).prop_counter := by
  simp only [_get_prop_id]
  cases hfind : dict_find? st.propositions_map (tostring n) with
  | some pid => simp
  | none => simp

theorem get_prop_id_stable {st : Interner} {k : String} {v : String}
    (h : dict_find? st.propositions_map k = some v) (n : Node) :
    dict_find? ((_get_prop_id st n).2).propositions_map k = some v := by
  simp only [_get_prop_id]
  cases hfind : dict_find? st.propositions_map (tostring n) with
  | some pid => simpa using h
  | none => simpa using dict_find?_append_of_some _ h

theorem run_intern_stable {st : Interner} {k v : String}
    (h : dict_find? st.propositions_map k = some v) :
    ∀ ns : List Node, dict_find? ((run_intern st ns)).propositions_map k = some v := by
  intro ns
  induction ns generalizing st with
  | nil => simpa [run_intern] using h
  | cons n rest ih =>
    rw [run_intern]
    exact ih (get_prop_id_stable h n)

theorem wf_run_intern {st : Interner} (hwf : Wf st) (ns : List Node) :
    Wf (run_intern st ns) := by
  induction ns generalizing st with
  | nil => simpa [run_intern] using hwf
  | cons n rest ih =>
    rw [run_intern]
    exact ih (wf_get_prop_id hwf n)

theorem run_intern_counter_le (st : Interner) (ns : List Node) :
    st.prop_counter ≤ (run_intern st ns).prop_counter := by
  induction ns generalizing st with
  | nil => simp [run_intern]
  | cons n rest ih =>
    rw [run_intern]
    exact le_trans (get_prop_id_counter_le st n) (ih _)

theorem run_intern_append (st : Interner) (xs ys : List Node) :
    run_intern st (xs ++ ys) = run_intern (run_intern st xs) ys := by
  induction xs generalizing st with
  | nil => simp [run_intern]
  | cons n rest ih =>
    rw [List.cons_append, run_intern, run_intern]
    exact ih _

theorem intern_results_length (st : Interner) (ns : List Node) :
    (intern_results st ns).length = ns.length := by
  induction ns generalizing st with
  | nil => simp [intern_results]
  | cons n rest ih =>
    rw [intern_results]
    simp [ih]

/-- The i-th returned symbol is the final-state binding of the i-th key. -/
theorem intern_results_lookup (ns : List Node) :
    ∀ (st : Interner) (i : Nat) (h : i < ns.length),
      (intern_results st ns)[i]? =
        dict_find? ((run_intern st ns)).propositions_map (tostring ns[i]) := by
  induction ns with
  | nil =>
    intro st i h
    simp at h
  | cons n rest ih =>
    intro st i h
    rw [intern_results, run_intern]
    cases i with
    | zero =>
      simp only [List.getElem?_cons_zero, List.getElem_cons_zero]
      exact (run_intern_stable (get_prop_id_lookup st n) rest).symm
    | succ j =>
      simp only [List.getElem?_cons_succ, List.getElem_cons_succ]
      exact ih _ j (by simpa using h)

/-- In a well-formed interner no symbol is bound to two distinct keys. -/
theorem wf_value_inj {st : Interner} (hwf : Wf st) {k1 k2 v : String}
    (h1 : (k1, v) ∈ st.propositions_map) (h2 : (k2, v) ∈ st.propositions_map) :
    k1 = k2 := by
  obtain ⟨hc, hv, hk⟩ := hwf
  obtain ⟨i1, hget1⟩ := List.mem_iff_get.mp h1
  obtain ⟨i2, hget2⟩ := List.mem_iff_get.mp h2
  rw [List.get_eq_getElem] at hget1 hget2
  have hv1 := hv i1.1 i1.2
  have hv2 := hv i2.1 i2.2
  rw [hget1] at hv1
  rw [hget2] at hv2
  have hi : i1.1 = i2.1 := prop_symbol_inj (hv1.symm.trans hv2)
  have hfe : i1 = i2 := Fin.ext hi
  subst hfe
  rw [hget1] at hget2
  exact congrArg Prod.fst hget2

/-- The loop body of `extractMCC.CTLParser.extract_properties_from_file`
over the property elements located by `findall` (XML parsing and the `.//`
descendant search are external I/O, so the located property elements are the
input).  For each property element, the `id` and `formula` children are
looked up; if either is missing the entry is skipped.  The translation of
the formula is stored in the insertion-ordered result dictionary under the
`id` text; a `ValueError` (`translationError`) is caught and the entry
skipped, while any other exception propagates out of the loop. -/
def extract_properties_go :
    List Node → List (Option String × String) → Interner →
    Except PyError (List (Option String × String)) × Interner
  | [], acc, st => (.ok acc, st)
  | prop_node :: rest, acc, st =>
    match find_child prop_node (_tag "id"), find_child prop_node (_tag "formula") with
    | some prop_id_node, some formula_node =>
      match translate_formula_node formula_node st with
      | (.ok ctl_string, st') =>
          extract_properties_go rest (dict_insert prop_id_node.text ctl_string acc) st'
      | (.error (.translationError _), st') => extract_properties_go rest acc st'
      | (.error .indexError, st') => (.error .indexError, st')
      | (.error .attributeError, st') => (.error .attributeError, st')
    | _, _ => extract_properties_go rest acc st

/-- `extractMCC.CTLParser.extract_properties_from_file`, starting from the
empty `extracted_props` dictionary. -/
def extract_properties_from_file (props : List Node) (st : Interner) :
    Except PyError (List (Option String × String)) × Interner :=
  extract_properties_go props [] st

/-- The sequence of `(prop_id, ctl_string)` assignments the extraction loop
performs, in loop order, before the dictionary semantics collapses duplicate
ids: the same recursion as `extract_properties_go` with plain consing in
place of `dict_insert`. -/
def insertions :
    List Node → Interner → Except PyError (List (Option String × String)) × Interner
  | [], st => (.ok [], st)
  | prop_node :: rest, st =>
    match find_child prop_node (_tag "id"), find_child prop_node (_tag "formula") with
    | some prop_id_node, some formula_node =>
      match translate_formula_node formula_node st with
      | (.ok ctl_string, st') =>
        match insertions rest st' with
        | (.ok l, st'') => (.ok ((prop_id_node.text, ctl_string) :: l), st'')
        | (.error e, st'') => (.error e, st'')
      | (.error (.translationError _), st') => insertions rest st'
      | (.error .indexError, st') => (.error .indexError, st')
      | (.error .attributeError, st') => (.error .attributeError, st')
    | _, _ => insertions rest st

/-- The driver is the fold of its insertion sequence into the dictionary. -/
theorem extract_go_eq_insertions (props : List Node) (acc : List (Option String × String))
    (st : Interner) :
    extract_properties_go props acc st =
      match insertions props st with
      | (.ok l, st') =>
          (.ok (l.foldl (fun d kv => dict_insert kv.1 kv.2 d) acc), st')
      | (.error e, st') => (.error e, st') := by
  induction props generalizing acc st with
  | nil => simp [extract_properties_go, insertions]
  | cons p rest ih =>
    rw [extract_properties_go, insertions]
    cases find_child p (_tag "id") with
    | none => simpa using ih acc st
    | some idn =>
      cases find_child p (_tag "formula") with
      | none => simpa using ih acc st
      | some fn =>
        dsimp only
        cases htr : translate_formula_node fn st with
        | mk r st' =>
          cases r with
          | ok s =>
            dsimp only
            rw [ih]
            cases hins : insertions rest st' with
            | mk rl st'' =>
              cases rl <;> simp [List.foldl]
          | error e =>
            cases e <;> simp [ih]

theorem extract_go_nil (acc : List (Option String × String)) (st : Interner) :
    extract_properties_go [] acc st = (.ok acc, st) := rfl

theorem extract_go_cons_ok {p idn fn : Node} {s : String} {st st' : Interner}
    (hid : find_child p (_tag "id") = some idn)
    (hfn : find_child p (_tag "formula") = some fn)
    (htr : translate_formula_node fn st = (.ok s, st'))
    (rest : List Node) (acc : List (Option String × String)) :
    extract_properties_go (p :: rest) acc st =
      extract_properties_go rest (dict_insert idn.text s acc) st' := by
  rw [extract_properties_go, hid, hfn]
  dsimp only
  rw [htr]

theorem extract_go_cons_skip {p idn fn : Node} {m : String} {st st' : Interner}
    (hid : find_child p (_tag "id") = some idn)
    (hfn : find_child p (_tag "formula") = some fn)
    (htr : translate_formula_node fn st = (.error (.translationError m), st'))
    (rest : List Node) (acc : List (Option String × String)) :
    extract_properties_go (p :: rest) acc st = extract_properties_go rest acc st' := by
  rw [extract_properties_go, hid, hfn]
  dsimp only
  rw [htr]

theorem extract_go_cons_fatal {p idn fn : Node} {st st' : Interner}
    (hid : find_child p (_tag "id") = some idn)
    (hfn : find_child p (_tag "formula") = some fn)
    (htr : translate_formula_node fn st = (.error .indexError, st'))
    (rest : List Node) (acc : List (Option String × String)) :
    extract_properties_go (p :: rest) acc st = (.error .indexError, st') := by
  rw [extract_properties_go, hid, hfn]
  dsimp only
  rw [htr]

theorem insertions_nil (st : Interner) : insertions [] st = (.ok [], st) := rfl

theorem insertions_cons_ok {p idn fn : Node} {s : String} {st st' : Interner}
    (hid : find_child p (_tag "id") = some idn)
    (hfn : find_child p (_tag "formula") = some fn)
    (htr : translate_formula_node fn st = (.ok s, st')) (rest : List Node) :
    insertions (p :: rest) st =
      match insertions rest st' with
      | (.ok l, st'') => (.ok ((idn.text, s) :: l), st'')
      | (.error e, st'') => (.error e, st'') := by
  rw [insertions, hid, hfn]
  dsimp only
  rw [htr]

theorem translate_join_cons_error {c : Node} {e : PyError} {st st' : Interner}
    (h : translate_formula_node c st = (.error e, st')) (cs : List Node) :
    translate_join (c :: cs) st = (.error e, st') := by
  rw [translate_join, h]

theorem translate_join_cons_ok_error {c : Node} {cs : List Node} {s : String}
    {st st' st'' : Interner} {e : PyError}
    (h1 : translate_formula_node c st = (.ok s, st'))
    (h2 : translate_join cs st' = (.error e, st'')) :
    translate_join (c :: cs) st = (.error e, st'') := by
  rw [translate_join, h1]
  dsimp only
  rw [h2]

theorem tfn_conj_of_join_error {tx : Option String} {cs : List Node} {e : PyError}
    {st st' : Interner} (h : translate_join cs st = (.error e, st')) :
    translate_formula_node (Node.mk (_tag "conjunction") tx cs) st =
      (.error e, st') := by
  rw [tfn_conj, h]

theorem insertions_cons_ok_pair {p idn fn : Node} {s : String}
    {st st' st'' : Interner} {l : List (Option String × String)}
    (hid : find_child p (_tag "id") = some idn)
    (hfn : find_child p (_tag "formula") = some fn)
    (htr : translate_formula_node fn st = (.ok s, st'))
    {rest : List Node} (hrest : insertions rest st' = (.ok l, st'')) :
    insertions (p :: rest) st = (.ok ((idn.text, s) :: l), st'') := by
  rw [insertions, hid, hfn]
  dsimp only
  rw [htr]
  dsimp only
  rw [hrest]

/-- A cleanly processed prefix of the document lets the loop continue from
its accumulated dictionary and interner state. -/
theorem extract_go_ok_append {pre : List Node} {acc acc' : List (Option String × String)}
    {st st1 : Interner} (rest : List Node)
    (h : extract_properties_go pre acc st = (.ok acc', st1)) :
    extract_properties_go (pre ++ rest) acc st = extract_properties_go rest acc' st1 := by
  induction pre generalizing acc st with
  | nil =>
    rw [extract_properties_go] at h
    injection h with h1 h2
    injection h1 with h1
    subst h1
    subst h2
    simp
  | cons p pres ih =>
    rw [extract_properties_go] at h
    rw [List.cons_append, extract_properties_go]
    cases hid : find_child p (_tag "id") with
    | none =>
      rw [hid] at h
      simp only at h ⊢
      exact ih h
    | some idn =>
      cases hfn : find_child p (_tag "formula") with
      | none =>
        rw [hid, hfn] at h
        simp only at h ⊢
        exact ih h
      | some fn =>
        rw [hid, hfn] at h
        simp only at h ⊢
        cases htr : translate_formula_node fn st with
        | mk r st' =>
          rw [htr] at h
          cases r with
          | ok s =>
            simp only at h ⊢
            exact ih h
          | error e =>
            cases e with
            | translationError m =>
              simp only at h ⊢
              exact ih h
            | indexError => simp at h
            | attributeError => simp at h

end ExtractMCC

namespace PrepareDataset

/-- The dialect configuration set up by `prepare_dataset.CTLParser.__init__`:
the token spellings chosen from the `lola_compatible` flag.  The Python
attributes `end`, `false` and `true` are Lean keywords and are embedded as
`end_lit`, `false_lit` and `true_lit`.  The non-lola branch of the source
never assigns `self.X` (and never reads it either); the field is present in
the record with its unused spelling. -/
structure CTLParserConfig where
  lola_compatible : Bool
  AND : String
  OR : String
  NOT : String
  ALLPATH : String
  EXPATH : String
  G : String
  F : String
  U : String
  W : String
  X : String
  end_lit : String
  false_lit : String
  true_lit : String

/-- `CTLParser(lola_compatible=True)`: the keyword dialect with native next
support and the `:` statement terminator.  Field order:
lola_compatible, AND, OR, NOT, ALLPATH, EXPATH, G, F, U, W, X, end, false,
true. -/
def lola_config : CTLParserConfig :=
  ⟨true, "AND", "OR", "NOT", "A", "E", "G", "F", "U", "W", "X", ":", "FALSE", "TRUE"⟩

/-- `CTLParser(lola_compatible=False)`: the symbolic dialect with no native
next operator, empty terminator and lowercase boolean literals. -/
def symbolic_config : CTLParserConfig :=
  ⟨false, "&", "|", "!", "A", "E", "G", "F", "U", "W", "X", "", "false", "true"⟩

/-- The quantifier token chosen by `prepare_dataset`: `ALLPATH` or `EXPATH`. -/
def pql (cfg : CTLParserConfig) (allp : Bool) : String :=
  if allp then cfg.ALLPATH else cfg.EXPATH

mutual
/-- `prepare_dataset.CTLParser.translate_formula_node`: the
dialect-configurable translator with the structural atomic-proposition
policy.  It is pure: `prepare_dataset`'s `_get_prop_id` is never called, so
the parser object state is never mutated.  As in the `ExtractMCC` embedding,
`translate_tail` is the code after the path-quantifier block. -/
def translate_formula_node (cfg : CTLParserConfig) (node : Node) :
    Except PyError String :=
  if node.tag = _tag "conjunction" then
    match translate_join cfg node.children with
    | .ok parts => .ok ("(" ++ String.intercalate (" " ++ cfg.AND ++ " ") parts ++ ")")
    | .error e => .error e
  else if node.tag = _tag "disjunction" then
    match translate_join cfg node.children with
    | .ok parts => .ok ("(" ++ String.intercalate (" " ++ cfg.OR ++ " ") parts ++ ")")
    | .error e => .error e
  else if node.tag = _tag "negation" then
    match hneg : node.children with
    | [] => .error .indexError
    | c :: _ =>
      match translate_formula_node cfg c with
      | .ok s => .ok (cfg.NOT ++ "(" ++ s ++ ")")
      | .error e => .error e
  else if node.tag = _tag "all-paths" ∨ node.tag = _tag "exists-path" then
    let quantifier := if node.tag = _tag "all-paths" then cfg.ALLPATH else cfg.EXPATH
    match hq : node.children with
    | [] => .error .indexError
    | op_node :: _ =>
      if op_node.tag = _tag "globally" then
        match hop : op_node.children with
        | [] => .error .indexError
        | oc :: _ =>
          match translate_formula_node cfg oc with
          | .ok s => .ok (quantifier ++ cfg.G ++ " (" ++ s ++ ")")
          | .error e => .error e
      else if op_node.tag = _tag "finally" then
        match hop : op_node.children with
        | [] => .error .indexError
        | oc :: _ =>
          match translate_formula_node cfg oc with
          | .ok s => .ok (quantifier ++ cfg.F ++ " (" ++ s ++ ")")
          | .error e => .error e
      else if op_node.tag = _tag "next" then
        match hop : op_node.children with
        | [] => .error .indexError
        | oc :: _ =>
          if ¬cfg.lola_compatible then
            match translate_formula_node cfg oc with
            | .ok s =>
                .ok (quantifier ++ "(" ++ cfg.false_lit ++ " " ++ cfg.W ++ " (" ++ s ++ "))")
            | .error e => .error e
          else
            match translate_formula_node cfg oc with
            | .ok s => .ok (quantifier ++ cfg.X ++ " (" ++ s ++ ")")
            | .error e => .error e
      else if op_node.tag = _tag "until" then
        match hu : op_node.children with
        | [] => .error .indexError
        | a_node :: op_rest =>
          match h1 : find_ns a_node.children with
          | none => .error .attributeError
          | some w1 =>
            match translate_formula_node cfg w1 with
            | .error e => .error e
            | .ok before_expr =>
              match op_rest with
              | [] => .error .indexError
              | b_node :: _ =>
                match h2 : find_ns b_node.children with
                | none => .error .attributeError
                | some w2 =>
                  match translate_formula_node cfg w2 with
                  | .error e => .error e
                  | .ok reach_expr =>
                      .ok (quantifier ++ "(" ++ before_expr ++ " " ++ cfg.U ++ " "
                        ++ reach_expr ++ ")")
      else
        translate_tail cfg node
  else
    translate_tail cfg node
termination_by (sizeOf node, 1)
decreasing_by
  all_goals simp_wf
  all_goals
  first
  | (apply Prod.Lex.right; omega)
  | (apply Prod.Lex.left; exact sizeOf_children_lt _)
  | (apply Prod.Lex.left; exact sizeOf_head_lt hneg)
  | (apply Prod.Lex.left;
     have u1 := sizeOf_head_lt hq;
     first
     | (have u2 := sizeOf_head_lt hop; omega)
     | (have u2 := sizeOf_head_lt hu;
        first
        | (have u3 := sizeOf_find_ns_lt h1; have u4 := sizeOf_children_lt a_node; omega)
        | (have u3 := sizeOf_second_lt hu;
           have u5 := sizeOf_find_ns_lt h2;
           have u6 := sizeOf_children_lt b_node; omega))
     | omega)

/-- The base-case code of `prepare_dataset.CTLParser.translate_formula_node`:
the structural atomic-proposition rendering (`integer-le`, `integer-eq`,
`place`, `integer-constant`, `tokens-count`, `is-fireable`), then the
transparent-wrapper recursion, then the unknown-tag `ValueError` (the
`input("wait")` on that line is console I/O and is not modelled).
For `place`/`integer-constant` the source returns `node.text`, which can be
the Python `None`; callers interpolate that value into an f-string, where it
renders as the text `None`, which is how the missing-text case is embedded.
For `is-fireable` the source calls the translation twice (once inside
`print`, once in the returned f-string); the call is pure, so a single call
is embedded. -/
def translate_tail (cfg : CTLParserConfig) (node : Node) : Except PyError String :=
  if node.tag = _tag "integer-le" then
    match hle : node.children with
    | [] => .error .indexError
    | [c0] =>
      match translate_formula_node cfg c0 with
      | .ok _ => .error .indexError
      | .error e => .error e
    | c0 :: c1 :: _ =>
      match translate_formula_node cfg c0 with
      | .error e => .error e
      | .ok before_expr =>
        match translate_formula_node cfg c1 with
        | .error e => .error e
        | .ok after => .ok ("(" ++ before_expr ++ " <= " ++ after ++ ")")
  else if node.tag = _tag "integer-eq" then
    match heq : node.children with
    | [] => .error .indexError
    | [c0] =>
      match translate_formula_node cfg c0 with
      | .ok _ => .error .indexError
      | .error e => .error e
    | c0 :: c1 :: _ =>
      match translate_formula_node cfg c0 with
      | .error e => .error e
      | .ok before_expr =>
        match translate_formula_node cfg c1 with
        | .error e => .error e
        | .ok after => .ok ("(" ++ before_expr ++ " = " ++ after ++ ")")
  else if node.tag = _tag "place" ∨ node.tag = _tag "integer-constant" then
    .ok (node.text.getD "None")
  else if node.tag = _tag "tokens-count" then
    match htc : node.children with
    | [] => .error .indexError
    | c :: _ => translate_formula_node cfg c
  else if node.tag = _tag "is-fireable" then
    match hif : node.children with
    | [] => .error .indexError
    | c :: _ => translate_formula_node cfg c
  else
    match htail : node.children with
    | c :: _ => translate_formula_node cfg c
    | [] => .error (.translationError ("Unknown or unhandled XML tag: " ++ node.tag))
termination_by (sizeOf node, 0)
decreasing_by
  all_goals simp_wf
  all_goals
  first
  | (apply Prod.Lex.left; exact sizeOf_head_lt hle)
  | (apply Prod.Lex.left; exact sizeOf_head_lt heq)
  | (apply Prod.Lex.left; exact sizeOf_head_lt htc)
  | (apply Prod.Lex.left; exact sizeOf_head_lt hif)
  | (apply Prod.Lex.left; exact sizeOf_head_lt htail)
  | (apply Prod.Lex.left;
     first
     | (have u1 := sizeOf_second_lt hle; omega)
     | (have u1 := sizeOf_second_lt heq; omega))

/-- The joined generator of child translations, as in `ExtractMCC` but pure. -/
def translate_join (cfg : CTLParserConfig) :
    List Node → Except PyError (List String)
  | [] => .ok []
  | c :: cs =>
    match translate_formula_node cfg c with
    | .error e => .error e
    | .ok s =>
      match translate_join cfg cs with
      | .error e => .error e
      | .ok rest => .ok (s :: rest)
termination_by l => (sizeOf l, 0)
decreasing_by
  all_goals simp_wf
  all_goals
  first
  | (apply Prod.Lex.right; omega)
  | (apply Prod.Lex.left; omega)
end

theorem ptfn_quant_next (cfg : CTLParserConfig) (allp : Bool) (tx op_tx : Option String)
    (oc : Node) (ocs rest : List Node) :
    translate_formula_node cfg
        (Node.mk (qtag allp) tx (Node.mk (_tag "next") op_tx (oc :: ocs) :: rest)) =
      match translate_formula_node cfg oc with
      | .ok s =>
          .ok (if cfg.lola_compatible
            then pql cfg allp ++ cfg.X ++ " (" ++ s ++ ")"
            else pql cfg allp ++ "(" ++ cfg.false_lit ++ " " ++ cfg.W ++ " (" ++ s ++ "))")
      | .error e => .error e := by
  by_cases hc : cfg.lola_compatible <;> cases allp <;>
    (rw [translate_formula_node.eq_def];
     simp [Node.tag, Node.children, qtag, pql, _tag, MCC_NAMESPACE, hc])

theorem ptfn_quant_until (cfg : CTLParserConfig) (allp : Bool)
    (tx op_tx a_tx b_tx : Option String) (a_tag b_tag : String)
    (a_children b_children op_rest rest : List Node) (w1 w2 : Node)
    (h1 : find_ns a_children = some w1) (h2 : find_ns b_children = some w2) :
    translate_formula_node cfg
        (Node.mk (qtag allp) tx
          (Node.mk (_tag "until") op_tx
            (Node.mk a_tag a_tx a_children :: Node.mk b_tag b_tx b_children :: op_rest)
            :: rest)) =
      match translate_formula_node cfg w1 with
      | .error e => .error e
      | .ok before_expr =>
        match translate_formula_node cfg w2 with
        | .error e => .error e
        | .ok reach_expr =>
            .ok (pql cfg allp ++ "(" ++ before_expr ++ " " ++ cfg.U ++ " "
              ++ reach_expr ++ ")") := by
  cases allp <;>
  · rw [translate_formula_node.eq_def]
    simp [Node.tag, Node.children, qtag, pql, _tag, MCC_NAMESPACE]
    split
    next heq => rw [h1] at heq; cases heq
    next w heq =>
      rw [h1] at heq
      injection heq with heq
      subst heq
      cases htr : translate_formula_node cfg w1 with
      | error e => rfl
      | ok before_expr =>
        dsimp only
        split
        next heq2 => rw [h2] at heq2; cases heq2
        next w2x heq2 =>
          rw [h2] at heq2
          injection heq2 with heq2
          subst heq2
          rfl

theorem ptfn_tokens_count (cfg : CTLParserConfig) (tx : Option String) (c : Node)
    (cs : List Node) :
    translate_formula_node cfg (Node.mk (_tag "tokens-count") tx (c :: cs)) =
      translate_formula_node cfg c := by
  rw [translate_formula_node.eq_def, translate_tail.eq_def]
  simp [Node.tag, Node.children, _tag, MCC_NAMESPACE]

theorem ptfn_place (cfg : CTLParserConfig) (tx : Option String) :
    translate_formula_node cfg (Node.mk (_tag "place") tx []) = .ok (tx.getD "None") := by
  rw [translate_formula_node.eq_def, translate_tail.eq_def]
  simp [Node.tag, Node.children, Node.text, _tag, MCC_NAMESPACE]

theorem ptfn_wrapper (cfg : CTLParserConfig) (tag : String) (tx : Option String)
    (c : Node) (cs : List Node)
    (h1 : ¬tag = _tag "conjunction") (h2 : ¬tag = _tag "disjunction")
    (h3 : ¬tag = _tag "negation") (h4 : ¬tag = _tag "all-paths")
    (h5 : ¬tag = _tag "exists-path") (h6 : ¬tag = _tag "integer-le")
    (h7 : ¬tag = _tag "integer-eq") (h8 : ¬tag = _tag "place")
    (h9 : ¬tag = _tag "integer-constant") (h10 : ¬tag = _tag "tokens-count")
    (h11 : ¬tag = _tag "is-fireable") :
    translate_formula_node cfg (Node.mk tag tx (c :: cs)) =
      translate_formula_node cfg c := by
  rw [translate_formula_node.eq_def, translate_tail.eq_def]
  simp [Node.tag, Node.children, h1, h2, h3, h4, h5, h6, h7, h8, h9, h10, h11]

/-- The loop body of `prepare_dataset.CTLParser.extract_properties_from_file`
over the located property elements: as in `ExtractMCC`, but pure, indexed by
`enumerate`, and appending the statement terminator `self.end` to every
stored translation except the one at the last index of the document
(`ctl_string + self.end if i < len(prop_nodes) - 1 else ctl_string`). -/
def extract_properties_go (cfg : CTLParserConfig) (n : Nat) :
    Nat → List Node → List (Option String × String) →
    Except PyError (List (Option String × String))
  | _, [], acc => .ok acc
  | i, prop_node :: rest, acc =>
    match find_child prop_node (_tag "id"), find_child prop_node (_tag "formula") with
    | some prop_id_node, some formula_node =>
      match translate_formula_node cfg formula_node with
      | .ok ctl_string =>
          extract_properties_go cfg n (i + 1) rest
            (dict_insert prop_id_node.text
              (if i < n - 1 then ctl_string ++ cfg.end_lit else ctl_string) acc)
      | .error (.translationError _) => extract_properties_go cfg n (i + 1) rest acc
      | .error .indexError => .error .indexError
      | .error .attributeError => .error .attributeError
    | _, _ => extract_properties_go cfg n (i + 1) rest acc

/-- `prepare_dataset.CTLParser.extract_properties_from_file`: the loop runs
over `enumerate(prop_nodes)` with `n = len(prop_nodes)` fixed up front. -/
def extract_properties_from_file (cfg : CTLParserConfig) (props : List Node) :
    Except PyError (List (Option String × String)) :=
  extract_properties_go cfg props.length 0 props []

/-- The ordered sequence of `(prop_id, stored_string)` assignments the loop
performs, before dictionary collapsing of duplicate ids. -/
def insertions (cfg : CTLParserConfig) (n : Nat) :
    Nat → List Node → Except PyError (List (Option String × String))
  | _, [] => .ok []
  | i, prop_node :: rest =>
    match find_child prop_node (_tag "id"), find_child prop_node (_tag "formula") with
    | some prop_id_node, some formula_node =>
      match translate_formula_node cfg formula_node with
      | .ok ctl_string =>
        match insertions cfg n (i + 1) rest with
        | .ok l =>
            .ok ((prop_id_node.text,
              if i < n - 1 then ctl_string ++ cfg.end_lit else ctl_string) :: l)
        | .error e => .error e
      | .error (.translationError _) => insertions cfg n (i + 1) rest
      | .error .indexError => .error .indexError
      | .error .attributeError => .error .attributeError
    | _, _ => insertions cfg n (i + 1) rest

theorem p_extract_go_nil (cfg : CTLParserConfig) (n i : Nat)
    (acc : List (Option String × String)) :
    extract_properties_go cfg n i [] acc = .ok acc := rfl

theorem p_extract_go_cons_ok {cfg : CTLParserConfig} {p idn fn : Node} {s : String}
    (n i : Nat)
    (hid : find_child p (_tag "id") = some idn)
    (hfn : find_child p (_tag "formula") = some fn)
    (htr : translate_formula_node cfg fn = .ok s)
    (rest : List Node) (acc : List (Option String × String)) :
    extract_properties_go cfg n i (p :: rest) acc =
      extract_properties_go cfg n (i + 1) rest
        (dict_insert idn.text (if i < n - 1 then s ++ cfg.end_lit else s) acc) := by
  rw [extract_properties_go, hid, hfn]
  dsimp only
  rw [htr]

theorem p_insertions_nil (cfg : CTLParserConfig) (n i : Nat) :
    insertions cfg n i [] = .ok [] := rfl

theorem p_insertions_cons_ok {cfg : CTLParserConfig} {p idn fn : Node} {s : String}
    (n i : Nat)
    (hid : find_child p (_tag "id") = some idn)
    (hfn : find_child p (_tag "formula") = some fn)
    (htr : translate_formula_node cfg fn = .ok s) (rest : List Node) :
    insertions cfg n i (p :: rest) =
      match insertions cfg n (i + 1) rest with
      | .ok l => .ok ((idn.text, if i < n - 1 then s ++ cfg.end_lit else s) :: l)
      | .error e => .error e := by
  rw [insertions, hid, hfn]
  dsimp only
  rw [htr]

/-- The driver is the fold of its insertion sequence into the dictionary. -/
theorem p_extract_go_eq_insertions (cfg : CTLParserConfig) (n i : Nat) (props : List Node)
    (acc : List (Option String × String)) :
    extract_properties_go cfg n i props acc =
      match insertions cfg n i props with
      | .ok l => .ok (l.foldl (fun d kv => dict_insert kv.1 kv.2 d) acc)
      | .error e => .error e := by
  induction props generalizing i acc with
  | nil => simp [extract_properties_go, insertions]
  | cons p rest ih =>
    rw [extract_properties_go, insertions]
    cases find_child p (_tag "id") with
    | none => simpa using ih (i + 1) acc
    | some idn =>
      cases find_child p (_tag "formula") with
      | none => simpa using ih (i + 1) acc
      | some fn =>
        dsimp only
        cases htr : translate_formula_node cfg fn with
        | ok s =>
          dsimp only
          rw [ih]
          cases hins : insertions cfg n (i + 1) rest <;> simp [List.foldl]
        | error e =>
          cases e <;> simp [ih]

theorem p_insertions_cons_ok_pair {cfg : CTLParserConfig} {p idn fn : Node}
    {s : String} (n i : Nat) {l : List (Option String × String)}
    (hid : find_child p (_tag "id") = some idn)
    (hfn : find_child p (_tag "formula") = some fn)
    (htr : translate_formula_node cfg fn = .ok s)
    {rest : List Node} (hrest : insertions cfg n (i + 1) rest = .ok l) :
    insertions cfg n i (p :: rest) =
      .ok ((idn.text, if i < n - 1 then s ++ cfg.end_lit else s) :: l) := by
  rw [insertions, hid, hfn]
  dsimp only
  rw [htr]
  dsimp only
  rw [hrest]

/-- Splitting the insertion sequence at a list split point. -/
theorem insertions_append (cfg : CTLParserConfig) (n i : Nat) (xs ys : List Node) :
    insertions cfg n i (xs ++ ys) =
      match insertions cfg n i xs with
      | .ok l =>
        match insertions cfg n (i + xs.length) ys with
        | .ok l2 => .ok (l ++ l2)
        | .error e => .error e
      | .error e => .error e := by
  induction xs generalizing i with
  | nil =>
    simp [insertions]
    cases insertions cfg n i ys <;> simp
  | cons p rest ih =>
    rw [List.cons_append, insertions, insertions]
    have harith : i + 1 + rest.length = i + (rest.length + 1) := by omega
    cases find_child p (_tag "id") with
    | none =>
      rw [ih]
      simp only [List.length_cons]
      rw [harith]
    | some idn =>
      cases find_child p (_tag "formula") with
      | none =>
        rw [ih]
        simp only [List.length_cons]
        rw [harith]
      | some fn =>
        dsimp only
        cases htr : translate_formula_node cfg fn with
        | ok s =>
          rw [ih]
          simp only [List.length_cons]
          rw [harith]
          cases h1 : insertions cfg n (i + 1) rest with
          | ok l =>
            dsimp only
            cases insertions cfg n (i + (rest.length + 1)) ys <;> simp
          | error e => simp
        | error e =>
          cases e <;>
            first
            | (rw [ih]; simp only [List.length_cons]; rw [harith])
            | simp

end PrepareDataset

/-- An `is-fireable` atom over one transition, as found in MCC CTLFireability
property files. -/
def fire (t : String) : Node :=
  Node.mk (_tag "is-fireable") none [Node.mk (_tag "transition") (some t) []]

/-- A `tokens-count` atom over one place, as found in MCC CTLCardinality
property files. -/
def tc_place (s : String) : Node :=
  Node.mk (_tag "tokens-count") none [Node.mk (_tag "place") (some s) []]

/-- Claim C3: from a fresh Interner, the symbolic-dialect opaque translation
of `conjunction(is-fireable(t1), is-fireable(t2))` with distinct transitions
t1, t2 is exactly the string `(p0 & p1)`, and the Interner afterwards holds
exactly the two atom bindings. -/
theorem claim_C3 :
    ExtractMCC.translate_formula_node
        (Node.mk (_tag "conjunction") none [fire "t1", fire "t2"]) Interner.empty =
      (.ok "(p0 & p1)",
        ⟨[(tostring (fire "t1"), "p0"), (tostring (fire "t2"), "p1")], 2⟩) ∧
    ((ExtractMCC.translate_formula_node
        (Node.mk (_tag "conjunction") none [fire "t1", fire "t2"])
        Interner.empty).2).propositions_map.length = 2 := by
  have h : ExtractMCC.translate_formula_node
      (Node.mk (_tag "conjunction") none [fire "t1", fire "t2"]) Interner.empty =
      (.ok "(p0 & p1)",
        ⟨[(tostring (fire "t1"), "p0"), (tostring (fire "t2"), "p1")], 2⟩) := by
    simp only [fire]
    simp only [ExtractMCC.tfn_conj, ExtractMCC.translate_join]
    simp only [ExtractMCC.tfn_atomic _ _ _ _ (Or.inr (Or.inl rfl))]
    simp [ExtractMCC._get_prop_id, Interner.empty, dict_find?, tostring,
      tostring_list, _tag, MCC_NAMESPACE, Node.tag, Node.children, Node.text]
    decide
  refine ⟨h, ?_⟩
  rw [h]
  rfl

/-- Claim C1: for a path-quantified next node `quantifier(next(phi))`: under a
dialect with no native next support (the hardcoded `extractMCC` translator
and `prepare_dataset` with `lola_compatible=False`) the rendering is exactly
the weak-until rewrite `{quantifier}(false W ({phi}))`, and under the keyword
dialect with native next support (`lola_compatible=True`) it is exactly
`{quantifier}X ({phi})`, where `{phi}` is the translation of the child
subformula. -/
theorem claim_C1 (allp : Bool) (phi : Node) (tx op_tx : Option String)
    (st st' : Interner) (s sP sK : String)
    (hE : ExtractMCC.translate_formula_node phi st = (.ok s, st'))
    (hP : PrepareDataset.translate_formula_node PrepareDataset.symbolic_config phi = .ok sP)
    (hK : PrepareDataset.translate_formula_node PrepareDataset.lola_config phi = .ok sK) :
    ExtractMCC.translate_formula_node
        (Node.mk (qtag allp) tx [Node.mk (_tag "next") op_tx [phi]]) st =
      (.ok (qletter allp ++ "(false W (" ++ s ++ "))"), st') ∧
    PrepareDataset.translate_formula_node PrepareDataset.symbolic_config
        (Node.mk (qtag allp) tx [Node.mk (_tag "next") op_tx [phi]]) =
      .ok (qletter allp ++ "(false W (" ++ sP ++ "))") ∧
    PrepareDataset.translate_formula_node PrepareDataset.lola_config
        (Node.mk (qtag allp) tx [Node.mk (_tag "next") op_tx [phi]]) =
      .ok (qletter allp ++ "X (" ++ sK ++ ")") := by
  refine ⟨?_, ?_, ?_⟩
  · rw [ExtractMCC.tfn_quant_next, hE]
  · rw [PrepareDataset.ptfn_quant_next, hP]
    cases allp <;>
      simp [PrepareDataset.pql, qletter, PrepareDataset.symbolic_config,
        String.append_assoc]
  · rw [PrepareDataset.ptfn_quant_next, hK]
    cases allp <;>
      simp [PrepareDataset.pql, qletter, PrepareDataset.lola_config,
        String.append_assoc]

/-- Witness for C1 at `all-paths(next(tokens-count(place s1)))`: the child
translates to `p0` under the opaque interner and to `s1` under the
structural policy of both `prepare_dataset` dialects. -/
theorem claim_C1_witness :
    (ExtractMCC.translate_formula_node (tc_place "s1") Interner.empty =
      (.ok "p0", ⟨[(tostring (tc_place "s1"), "p0")], 1⟩)) ∧
    (PrepareDataset.translate_formula_node PrepareDataset.symbolic_config
      (tc_place "s1") = .ok "s1") ∧
    (PrepareDataset.translate_formula_node PrepareDataset.lola_config
      (tc_place "s1") = .ok "s1") ∧
    (ExtractMCC.translate_formula_node
        (Node.mk (qtag true) none [Node.mk (_tag "next") none [tc_place "s1"]])
        Interner.empty =
      (.ok (qletter true ++ "(false W (" ++ "p0" ++ "))"),
        ⟨[(tostring (tc_place "s1"), "p0")], 1⟩)) ∧
    (PrepareDataset.translate_formula_node PrepareDataset.symbolic_config
        (Node.mk (qtag true) none [Node.mk (_tag "next") none [tc_place "s1"]]) =
      .ok (qletter true ++ "(false W (" ++ "s1" ++ "))")) ∧
    (PrepareDataset.translate_formula_node PrepareDataset.lola_config
        (Node.mk (qtag true) none [Node.mk (_tag "next") none [tc_place "s1"]]) =
      .ok (qletter true ++ "X (" ++ "s1" ++ ")")) := by
  have hE : ExtractMCC.translate_formula_node (tc_place "s1") Interner.empty =
      (.ok "p0", ⟨[(tostring (tc_place "s1"), "p0")], 1⟩) := by
    simp only [tc_place]
    simp only [ExtractMCC.tfn_atomic _ _ _ _ (Or.inr (Or.inr rfl))]
    simp [ExtractMCC._get_prop_id, Interner.empty, dict_find?, tostring,
      tostring_list, _tag, MCC_NAMESPACE, Node.tag, Node.children, Node.text]
    decide
  have hP : PrepareDataset.translate_formula_node PrepareDataset.symbolic_config
      (tc_place "s1") = .ok "s1" := by
    simp only [tc_place, PrepareDataset.ptfn_tokens_count, PrepareDataset.ptfn_place]
    rfl
  have hK : PrepareDataset.translate_formula_node PrepareDataset.lola_config
      (tc_place "s1") = .ok "s1" := by
    simp only [tc_place, PrepareDataset.ptfn_tokens_count, PrepareDataset.ptfn_place]
    rfl
  obtain ⟨c1, c2, c3⟩ := claim_C1 true (tc_place "s1") none none
    Interner.empty ⟨[(tostring (tc_place "s1"), "p0")], 1⟩ "p0" "s1" "s1" hE hP hK
  exact ⟨hE, hP, hK, c1, c2, c3⟩

/-- Claim C5 counterexample: under the opaque policy of `extractMCC`, a
`place` leaf is not interned but raises the unknown-tag `ValueError`, and an
`integer-eq` node is not handed to the Interner as one unit: translation
descends into its first child and interns that subtree instead. -/
theorem claim_C5_counterexample :
    (ExtractMCC.translate_formula_node (Node.mk (_tag "place") (some "s1") [])
        Interner.empty =
      (.error (.translationError ("Unknown or unhandled XML tag: " ++ _tag "place")),
        Interner.empty)) ∧
    (ExtractMCC.translate_formula_node
        (Node.mk (_tag "integer-eq") none
          [tc_place "s1", Node.mk (_tag "integer-constant") (some "3") []])
        Interner.empty =
      (.ok "p0", ⟨[(tostring (tc_place "s1"), "p0")], 1⟩)) ∧
    tostring (tc_place "s1") ≠
      tostring (Node.mk (_tag "integer-eq") none
        [tc_place "s1", Node.mk (_tag "integer-constant") (some "3") []]) := by
  refine ⟨?_, ?_, ?_⟩
  · exact ExtractMCC.tfn_leaf _ _ _ (by decide) (by decide) (by decide) (by decide)
      (by decide) (by decide) (by decide) (by decide)
  · rw [ExtractMCC.tfn_wrapper _ _ _ _ _ (by decide) (by decide) (by decide) (by decide)
      (by decide) (by decide) (by decide) (by decide)]
    simp only [tc_place]
    simp only [ExtractMCC.tfn_atomic _ _ _ _ (Or.inr (Or.inr rfl))]
    simp [ExtractMCC._get_prop_id, Interner.empty, dict_find?, tostring,
      tostring_list, _tag, MCC_NAMESPACE, Node.tag, Node.children, Node.text]
    decide
  · simp [tc_place, tostring, tostring_list, _tag, MCC_NAMESPACE,
      Node.tag, Node.children, Node.text]

/-- Claim C5 as amended: under the opaque policy, exactly the atomic tags the
implementation recognizes (`integer-le`, `is-fireable`, `tokens-count`) are
handed whole to the Interner, which returns the generated symbol without any
descent into the subtree; `integer-eq`, `place` and `integer-constant` fall
through to the wrapper recursion or the unknown-leaf error instead. -/
theorem claim_C5_amended (node : Node) (st : Interner)
    (h : node.tag = _tag "integer-le" ∨ node.tag = _tag "is-fireable" ∨
      node.tag = _tag "tokens-count") :
    ExtractMCC.translate_formula_node node st =
      (.ok (ExtractMCC._get_prop_id st node).1, (ExtractMCC._get_prop_id st node).2) := by
  obtain ⟨tag, tx, cs⟩ := node
  exact ExtractMCC.tfn_atomic tag tx cs st (by simpa [Node.tag] using h)

/-- Witness for the amended C5 at a concrete `is-fireable` atom. -/
theorem claim_C5_amended_witness :
    ((fire "t7").tag = _tag "integer-le" ∨ (fire "t7").tag = _tag "is-fireable" ∨
      (fire "t7").tag = _tag "tokens-count") ∧
    ExtractMCC.translate_formula_node (fire "t7") Interner.empty =
      (.ok (ExtractMCC._get_prop_id Interner.empty (fire "t7")).1,
        (ExtractMCC._get_prop_id Interner.empty (fire "t7")).2) :=
  ⟨by decide, claim_C5_amended (fire "t7") Interner.empty (by decide)⟩

/-- Claim C7 counterexample: a `negation` node with no children makes the
translator fail with an IndexError, not a TranslationError, so the
unrecognized-leaf `TranslationError` is not the only failure mode. -/
theorem claim_C7_counterexample :
    ExtractMCC.translate_formula_node (Node.mk (_tag "negation") none []) Interner.empty =
      (.error .indexError, Interner.empty) ∧
    PyError.indexError ≠
      PyError.translationError ("Unknown or unhandled XML tag: " ++ _tag "negation") :=
  ⟨ExtractMCC.tfn_neg_nil none Interner.empty, by simp⟩

/-- Claim C7 as amended: for an unrecognized tag, a node with children is a
transparent wrapper (the first child translation is returned unchanged) and
a leaf raises the `TranslationError` carrying the tag name; but this is not
the only failure mode of the translator: shape violations on recognized tags
(e.g. a childless `negation`) raise an IndexError instead. -/
theorem claim_C7_amended (tag : String) (tx : Option String) (st : Interner)
    (h : tag ∉ [_tag "conjunction", _tag "disjunction", _tag "negation",
      _tag "all-paths", _tag "exists-path", _tag "integer-le", _tag "is-fireable",
      _tag "tokens-count"]) :
    (∀ (c : Node) (cs : List Node),
      ExtractMCC.translate_formula_node (Node.mk tag tx (c :: cs)) st =
        ExtractMCC.translate_formula_node c st) ∧
    ExtractMCC.translate_formula_node (Node.mk tag tx []) st =
      (.error (.translationError ("Unknown or unhandled XML tag: " ++ tag)), st) ∧
    (∀ st2 : Interner,
      ExtractMCC.translate_formula_node (Node.mk (_tag "negation") none []) st2 =
        (.error .indexError, st2)) := by
  simp only [List.mem_cons, List.mem_singleton, not_or] at h
  obtain ⟨h1, h2, h3, h4, h5, h6, h7, h8⟩ := h
  refine ⟨?_, ?_, ?_⟩
  · intro c cs
    exact ExtractMCC.tfn_wrapper tag tx c cs st h1 h2 h3 h4 h5 h6 h7 h8.1
  · exact ExtractMCC.tfn_leaf tag tx st h1 h2 h3 h4 h5 h6 h7 h8.1
  · intro st2
    exact ExtractMCC.tfn_neg_nil none st2

/-- Witness for the amended C7 at the unrecognized tag `formula`. -/
theorem claim_C7_amended_witness :
    (_tag "formula" ∉ [_tag "conjunction", _tag "disjunction", _tag "negation",
      _tag "all-paths", _tag "exists-path", _tag "integer-le", _tag "is-fireable",
      _tag "tokens-count"]) ∧
    (ExtractMCC.translate_formula_node
        (Node.mk (_tag "formula") none [fire "t1"]) Interner.empty =
      ExtractMCC.translate_formula_node (fire "t1") Interner.empty) ∧
    (ExtractMCC.translate_formula_node (Node.mk (_tag "formula") none none.toList)
        Interner.empty =
      (.error (.translationError ("Unknown or unhandled XML tag: " ++ _tag "formula")),
        Interner.empty)) ∧
    (ExtractMCC.translate_formula_node (Node.mk (_tag "negation") none [])
        Interner.empty = (.error .indexError, Interner.empty)) := by
  have := claim_C7_amended (_tag "formula") none Interner.empty (by decide)
  exact ⟨by decide, this.1 (fire "t1") [], by simpa using this.2.1, this.2.2 Interner.empty⟩

/-- A well-formed property element with the given id text and formula child,
as located by the extraction driver. -/
def prop_entry (idText : String) (f : Node) : Node :=
  Node.mk (_tag "property") none
    [Node.mk (_tag "id") (some idText) [], Node.mk (_tag "formula") none [f]]

/-- Claim C10: a `negation`, `all-paths` or `exists-path` node with zero
children makes the translator raise an IndexError (not a TranslationError),
and because the extraction driver catches only the `ValueError`
(TranslationError), that IndexError propagates out of the driver and aborts
extraction of the whole document instead of skipping the offending entry. -/
theorem claim_C10 :
    (∀ (tx : Option String) (st : Interner),
      ExtractMCC.translate_formula_node (Node.mk (_tag "negation") tx []) st =
        (.error .indexError, st)) ∧
    (∀ (allp : Bool) (tx : Option String) (st : Interner),
      ExtractMCC.translate_formula_node (Node.mk (qtag allp) tx []) st =
        (.error .indexError, st)) ∧
    (∀ m : String, PyError.indexError ≠ PyError.translationError m) ∧
    (∀ (pre post : List Node) (p idn fn : Node)
        (acc' : List (Option String × String)) (st st1 st2 : Interner),
      ExtractMCC.extract_properties_go pre [] st = (.ok acc', st1) →
      find_child p (_tag "id") = some idn →
      find_child p (_tag "formula") = some fn →
      ExtractMCC.translate_formula_node fn st1 = (.error .indexError, st2) →
      ExtractMCC.extract_properties_from_file (pre ++ p :: post) st =
        (.error .indexError, st2)) := by
  refine ⟨ExtractMCC.tfn_neg_nil, ExtractMCC.tfn_quant_nil, by simp, ?_⟩
  intro pre post p idn fn acc' st st1 st2 hpre hid hfn htr
  rw [ExtractMCC.extract_properties_from_file,
    ExtractMCC.extract_go_ok_append _ hpre, ExtractMCC.extract_properties_go,
    hid, hfn]
  dsimp only
  rw [htr]

/-- Witness for C10: a two-entry document whose second entry holds a
childless `negation`; the whole extraction aborts with the IndexError even
though the first entry was translated. -/
theorem claim_C10_witness :
    (ExtractMCC.extract_properties_go [prop_entry "a" (fire "t1")] [] Interner.empty =
      (.ok [(some "a", "p0")], ⟨[(tostring (fire "t1"), "p0")], 1⟩)) ∧
    (find_child (prop_entry "b" (Node.mk (_tag "negation") none []))
      (_tag "id") = some (Node.mk (_tag "id") (some "b") [])) ∧
    (find_child (prop_entry "b" (Node.mk (_tag "negation") none []))
      (_tag "formula") = some (Node.mk (_tag "formula") none
        [Node.mk (_tag "negation") none []])) ∧
    (ExtractMCC.translate_formula_node
        (Node.mk (_tag "formula") none [Node.mk (_tag "negation") none []])
        ⟨[(tostring (fire "t1"), "p0")], 1⟩ =
      (.error .indexError, ⟨[(tostring (fire "t1"), "p0")], 1⟩)) ∧
    ExtractMCC.extract_properties_from_file
        [prop_entry "a" (fire "t1"), prop_entry "b" (Node.mk (_tag "negation") none [])]
        Interner.empty =
      (.error .indexError, ⟨[(tostring (fire "t1"), "p0")], 1⟩) := by
  have hid1 : find_child (prop_entry "a" (fire "t1")) (_tag "id") =
      some (Node.mk (_tag "id") (some "a") []) := by
    simp [prop_entry, find_child, fire, Node.children, Node.tag, List.find?]
  have hfn1 : find_child (prop_entry "a" (fire "t1")) (_tag "formula") =
      some (Node.mk (_tag "formula") none [fire "t1"]) := by
    simp [prop_entry, find_child, fire, Node.children, Node.tag, List.find?,
      _tag, MCC_NAMESPACE]
  have htr1 : ExtractMCC.translate_formula_node
      (Node.mk (_tag "formula") none [fire "t1"]) Interner.empty =
      (.ok "p0", ⟨[(tostring (fire "t1"), "p0")], 1⟩) := by
    rw [ExtractMCC.tfn_wrapper _ _ _ _ _ (by decide) (by decide) (by decide)
      (by decide) (by decide) (by decide) (by decide) (by decide)]
    simp only [fire]
    simp only [ExtractMCC.tfn_atomic _ _ _ _ (Or.inr (Or.inl rfl))]
    simp [ExtractMCC._get_prop_id, Interner.empty, dict_find?, tostring,
      tostring_list, _tag, MCC_NAMESPACE, Node.tag, Node.children, Node.text]
    decide
  have hpre : ExtractMCC.extract_properties_go [prop_entry "a" (fire "t1")] []
      Interner.empty =
      (.ok [(some "a", "p0")], ⟨[(tostring (fire "t1"), "p0")], 1⟩) := by
    rw [ExtractMCC.extract_go_cons_ok hid1 hfn1 htr1, ExtractMCC.extract_go_nil]
    rfl
  have hid2 : find_child (prop_entry "b" (Node.mk (_tag "negation") none []))
      (_tag "id") = some (Node.mk (_tag "id") (some "b") []) := by
    simp [prop_entry, find_child, Node.children, Node.tag, List.find?]
  have hfn2 : find_child (prop_entry "b" (Node.mk (_tag "negation") none []))
      (_tag "formula") = some (Node.mk (_tag "formula") none
        [Node.mk (_tag "negation") none []]) := by
    simp [prop_entry, find_child, Node.children, Node.tag, List.find?,
      _tag, MCC_NAMESPACE]
  have htr2 : ExtractMCC.translate_formula_node
      (Node.mk (_tag "formula") none [Node.mk (_tag "negation") none []])
      ⟨[(tostring (fire "t1"), "p0")], 1⟩ =
      (.error .indexError, ⟨[(tostring (fire "t1"), "p0")], 1⟩) := by
    rw [ExtractMCC.tfn_wrapper _ _ _ _ _ (by decide) (by decide) (by decide)
      (by decide) (by decide) (by decide) (by decide) (by decide)]
    exact ExtractMCC.tfn_neg_nil none _
  refine ⟨hpre, hid2, hfn2, htr2, ?_⟩
  exact claim_C10.2.2.2 [prop_entry "a" (fire "t1")] [] _ _ _ _ _ _ _
    hpre hid2 hfn2 htr2

/-- Claim C6: a path-quantified until node whose operator child has exactly
two children, each wrapping one nested subformula one level deeper, is
translated by locating each operand as the wrapper child's first
namespace-qualified subelement, translating the nested subformulas (not the
wrappers), and emitting `{quantifier}(` + before + ` U ` + reach + `)`; this
holds for the `extractMCC` translator and for both `prepare_dataset`
dialects. -/
theorem claim_C6 (allp : Bool) (w1tag w2tag : String)
    (w1tx w2tx tx op_tx : Option String) (phi1 phi2 : Node)
    (st st1 st2 : Interner) (s1 s2 sP1 sP2 sK1 sK2 : String)
    (hns1 : ns_brace.data.isPrefixOf phi1.tag.data = true)
    (hns2 : ns_brace.data.isPrefixOf phi2.tag.data = true)
    (hE1 : ExtractMCC.translate_formula_node phi1 st = (.ok s1, st1))
    (hE2 : ExtractMCC.translate_formula_node phi2 st1 = (.ok s2, st2))
    (hP1 : PrepareDataset.translate_formula_node PrepareDataset.symbolic_config phi1 =
      .ok sP1)
    (hP2 : PrepareDataset.translate_formula_node PrepareDataset.symbolic_config phi2 =
      .ok sP2)
    (hK1 : PrepareDataset.translate_formula_node PrepareDataset.lola_config phi1 =
      .ok sK1)
    (hK2 : PrepareDataset.translate_formula_node PrepareDataset.lola_config phi2 =
      .ok sK2) :
    ExtractMCC.translate_formula_node
        (Node.mk (qtag allp) tx
          [Node.mk (_tag "until") op_tx
            [Node.mk w1tag w1tx [phi1], Node.mk w2tag w2tx [phi2]]]) st =
      (.ok (qletter allp ++ "(" ++ s1 ++ " U " ++ s2 ++ ")"), st2) ∧
    PrepareDataset.translate_formula_node PrepareDataset.symbolic_config
        (Node.mk (qtag allp) tx
          [Node.mk (_tag "until") op_tx
            [Node.mk w1tag w1tx [phi1], Node.mk w2tag w2tx [phi2]]]) =
      .ok (qletter allp ++ "(" ++ sP1 ++ " U " ++ sP2 ++ ")") ∧
    PrepareDataset.translate_formula_node PrepareDataset.lola_config
        (Node.mk (qtag allp) tx
          [Node.mk (_tag "until") op_tx
            [Node.mk w1tag w1tx [phi1], Node.mk w2tag w2tx [phi2]]]) =
      .ok (qletter allp ++ "(" ++ sK1 ++ " U " ++ sK2 ++ ")") := by
  have hf1 : find_ns [phi1] = some phi1 := find_ns_cons_of_startsWith [] hns1
  have hf2 : find_ns [phi2] = some phi2 := find_ns_cons_of_startsWith [] hns2
  refine ⟨?_, ?_, ?_⟩
  · rw [ExtractMCC.tfn_quant_until allp tx op_tx w1tx w2tx w1tag w2tag
      [phi1] [phi2] [] [] phi1 phi2 st hf1 hf2, hE1]
    dsimp only
    rw [hE2]
  · rw [PrepareDataset.ptfn_quant_until PrepareDataset.symbolic_config allp tx op_tx
      w1tx w2tx w1tag w2tag [phi1] [phi2] [] [] phi1 phi2 hf1 hf2, hP1]
    dsimp only
    rw [hP2]
    cases allp <;>
      simp [PrepareDataset.pql, qletter, PrepareDataset.symbolic_config,
        String.append_assoc]
  · rw [PrepareDataset.ptfn_quant_until PrepareDataset.lola_config allp tx op_tx
      w1tx w2tx w1tag w2tag [phi1] [phi2] [] [] phi1 phi2 hf1 hf2, hK1]
    dsimp only
    rw [hK2]
    cases allp <;>
      simp [PrepareDataset.pql, qletter, PrepareDataset.lola_config,
        String.append_assoc]

set_option maxRecDepth 8192 in
/-- Witness for C6 at `exists-path(until(wrapper(tokens-count(place s1)),
wrapper(tokens-count(place s2))))`. -/
theorem claim_C6_witness :
    (ns_brace.data.isPrefixOf (tc_place "s1").tag.data = true) ∧
    (ns_brace.data.isPrefixOf (tc_place "s2").tag.data = true) ∧
    (ExtractMCC.translate_formula_node (tc_place "s1") Interner.empty =
      (.ok "p0", ⟨[(tostring (tc_place "s1"), "p0")], 1⟩)) ∧
    (ExtractMCC.translate_formula_node (tc_place "s2")
        ⟨[(tostring (tc_place "s1"), "p0")], 1⟩ =
      (.ok "p1",
        ⟨[(tostring (tc_place "s1"), "p0"), (tostring (tc_place "s2"), "p1")], 2⟩)) ∧
    (ExtractMCC.translate_formula_node
        (Node.mk (qtag false) none
          [Node.mk (_tag "until") none
            [Node.mk (_tag "before") none [tc_place "s1"],
              Node.mk (_tag "reach") none [tc_place "s2"]]]) Interner.empty =
      (.ok (qletter false ++ "(" ++ "p0" ++ " U " ++ "p1" ++ ")"),
        ⟨[(tostring (tc_place "s1"), "p0"), (tostring (tc_place "s2"), "p1")], 2⟩)) ∧
    (PrepareDataset.translate_formula_node PrepareDataset.symbolic_config
        (Node.mk (qtag false) none
          [Node.mk (_tag "until") none
            [Node.mk (_tag "before") none [tc_place "s1"],
              Node.mk (_tag "reach") none [tc_place "s2"]]]) =
      .ok (qletter false ++ "(" ++ "s1" ++ " U " ++ "s2" ++ ")")) ∧
    (PrepareDataset.translate_formula_node PrepareDataset.lola_config
        (Node.mk (qtag false) none
          [Node.mk (_tag "until") none
            [Node.mk (_tag "before") none [tc_place "s1"],
              Node.mk (_tag "reach") none [tc_place "s2"]]]) =
      .ok (qletter false ++ "(" ++ "s1" ++ " U " ++ "s2" ++ ")")) := by
  have hE1 : ExtractMCC.translate_formula_node (tc_place "s1") Interner.empty =
      (.ok "p0", ⟨[(tostring (tc_place "s1"), "p0")], 1⟩) := by
    simp only [tc_place]
    simp only [ExtractMCC.tfn_atomic _ _ _ _ (Or.inr (Or.inr rfl))]
    simp [ExtractMCC._get_prop_id, Interner.empty, dict_find?, tostring,
      tostring_list, _tag, MCC_NAMESPACE, Node.tag, Node.children, Node.text]
    decide
  have hE2 : ExtractMCC.translate_formula_node (tc_place "s2")
      ⟨[(tostring (tc_place "s1"), "p0")], 1⟩ =
      (.ok "p1",
        ⟨[(tostring (tc_place "s1"), "p0"), (tostring (tc_place "s2"), "p1")], 2⟩) := by
    simp only [tc_place]
    simp only [ExtractMCC.tfn_atomic _ _ _ _ (Or.inr (Or.inr rfl))]
    simp [ExtractMCC._get_prop_id, Interner.empty, dict_find?, tostring,
      tostring_list, _tag, MCC_NAMESPACE, Node.tag, Node.children, Node.text]
    decide
  have hP1 : PrepareDataset.translate_formula_node PrepareDataset.symbolic_config
      (tc_place "s1") = .ok "s1" := by
    simp only [tc_place, PrepareDataset.ptfn_tokens_count, PrepareDataset.ptfn_place]
    rfl
  have hP2 : PrepareDataset.translate_formula_node PrepareDataset.symbolic_config
      (tc_place "s2") = .ok "s2" := by
    simp only [tc_place, PrepareDataset.ptfn_tokens_count, PrepareDataset.ptfn_place]
    rfl
  have hK1 : PrepareDataset.translate_formula_node PrepareDataset.lola_config
      (tc_place "s1") = .ok "s1" := by
    simp only [tc_place, PrepareDataset.ptfn_tokens_count, PrepareDataset.ptfn_place]
    rfl
  have hK2 : PrepareDataset.translate_formula_node PrepareDataset.lola_config
      (tc_place "s2") = .ok "s2" := by
    simp only [tc_place, PrepareDataset.ptfn_tokens_count, PrepareDataset.ptfn_place]
    rfl
  obtain ⟨c1, c2, c3⟩ := claim_C6 false (_tag "before") (_tag "reach") none none
    none none (tc_place "s1") (tc_place "s2") Interner.empty
    ⟨[(tostring (tc_place "s1"), "p0")], 1⟩
    ⟨[(tostring (tc_place "s1"), "p0"), (tostring (tc_place "s2"), "p1")], 2⟩
    "p0" "p1" "s1" "s2" "s1" "s2" (by decide) (by decide)
    hE1 hE2 hP1 hP2 hK1 hK2
  exact ⟨by decide, by decide, hE1, hE2, c1, c2, c3⟩

/-- Claim C4 counterexample: a property formula whose translation fails can
leave the Interner changed: translating
`conjunction(is-fireable(t1), foo)` from a fresh Interner raises the
unknown-tag `ValueError`, but the state after the failure holds the
`is-fireable(t1)` binding interned before the failure point — it does not
equal the state before the translation began. -/
theorem claim_C4_counterexample :
    ExtractMCC.translate_formula_node
        (Node.mk (_tag "conjunction") none [fire "t1", Node.mk (_tag "foo") none []])
        Interner.empty =
      (.error (.translationError ("Unknown or unhandled XML tag: " ++ _tag "foo")),
        ⟨[(tostring (fire "t1"), "p0")], 1⟩) ∧
    (⟨[(tostring (fire "t1"), "p0")], 1⟩ : Interner) ≠ Interner.empty := by
  have hfire : ExtractMCC.translate_formula_node (fire "t1") Interner.empty =
      (.ok "p0", ⟨[(tostring (fire "t1"), "p0")], 1⟩) := by
    simp only [fire]
    simp only [ExtractMCC.tfn_atomic _ _ _ _ (Or.inr (Or.inl rfl))]
    simp [ExtractMCC._get_prop_id, Interner.empty, dict_find?, tostring,
      tostring_list, _tag, MCC_NAMESPACE, Node.tag, Node.children, Node.text]
    decide
  have hfoo : ExtractMCC.translate_formula_node (Node.mk (_tag "foo") none [])
      ⟨[(tostring (fire "t1"), "p0")], 1⟩ =
      (.error (.translationError ("Unknown or unhandled XML tag: " ++ _tag "foo")),
        ⟨[(tostring (fire "t1"), "p0")], 1⟩) :=
    ExtractMCC.tfn_leaf _ _ _ (by decide) (by decide) (by decide) (by decide)
      (by decide) (by decide) (by decide) (by decide)
  refine ⟨?_, ?_⟩
  · exact ExtractMCC.tfn_conj_of_join_error
      (ExtractMCC.translate_join_cons_ok_error hfire
        (ExtractMCC.translate_join_cons_error hfoo []))
  · intro h
    have := congrArg Interner.prop_counter h
    simp [Interner.empty] at this

/-- Claim C4 as amended: a failed translation leaves the Interner in the
state reached by the partial translation up to the error point, so a skipped
entry may consume new symbols; the extraction driver catches the error and
passes exactly that post-failure state to the subsequent sibling entries. -/
theorem claim_C4_amended :
    (∀ (atom : Node) (st : Interner) (utag : String) (utx tx : Option String),
      (atom.tag = _tag "integer-le" ∨ atom.tag = _tag "is-fireable" ∨
        atom.tag = _tag "tokens-count") →
      utag ∉ [_tag "conjunction", _tag "disjunction", _tag "negation",
        _tag "all-paths", _tag "exists-path", _tag "integer-le", _tag "is-fireable",
        _tag "tokens-count"] →
      ExtractMCC.translate_formula_node
          (Node.mk (_tag "conjunction") tx [atom, Node.mk utag utx []]) st =
        (.error (.translationError ("Unknown or unhandled XML tag: " ++ utag)),
          (ExtractMCC._get_prop_id st atom).2)) ∧
    (∀ (p idn fn : Node) (rest : List Node) (acc : List (Option String × String))
        (st st' : Interner) (m : String),
      find_child p (_tag "id") = some idn →
      find_child p (_tag "formula") = some fn →
      ExtractMCC.translate_formula_node fn st = (.error (.translationError m), st') →
      ExtractMCC.extract_properties_go (p :: rest) acc st =
        ExtractMCC.extract_properties_go rest acc st') := by
  constructor
  · intro atom st utag utx tx hatom hutag
    simp only [List.mem_cons, List.mem_singleton, not_or] at hutag
    obtain ⟨h1, h2, h3, h4, h5, h6, h7, h8⟩ := hutag
    have hatomtr : ExtractMCC.translate_formula_node atom st =
        (.ok (ExtractMCC._get_prop_id st atom).1, (ExtractMCC._get_prop_id st atom).2) := by
      obtain ⟨ta, txa, csa⟩ := atom
      exact ExtractMCC.tfn_atomic ta txa csa st (by simpa [Node.tag] using hatom)
    have hleaf := ExtractMCC.tfn_leaf utag utx
      ((ExtractMCC._get_prop_id st atom).2) h1 h2 h3 h4 h5 h6 h7 h8.1
    exact ExtractMCC.tfn_conj_of_join_error
      (ExtractMCC.translate_join_cons_ok_error hatomtr
        (ExtractMCC.translate_join_cons_error hleaf []))
  · intro p idn fn rest acc st st' m hid hfn htr
    exact ExtractMCC.extract_go_cons_skip hid hfn htr rest acc

/-- Witness for the amended C4 at a concrete failing conjunction and a
concrete skipped entry. -/
theorem claim_C4_amended_witness :
    ((fire "t1").tag = _tag "integer-le" ∨ (fire "t1").tag = _tag "is-fireable" ∨
      (fire "t1").tag = _tag "tokens-count") ∧
    (_tag "foo" ∉ [_tag "conjunction", _tag "disjunction", _tag "negation",
      _tag "all-paths", _tag "exists-path", _tag "integer-le", _tag "is-fireable",
      _tag "tokens-count"]) ∧
    (ExtractMCC.translate_formula_node
        (Node.mk (_tag "conjunction") none [fire "t1", Node.mk (_tag "foo") none []])
        Interner.empty =
      (.error (.translationError ("Unknown or unhandled XML tag: " ++ _tag "foo")),
        (ExtractMCC._get_prop_id Interner.empty (fire "t1")).2)) ∧
    (find_child (prop_entry "a" (Node.mk (_tag "foo") none [])) (_tag "id") =
      some (Node.mk (_tag "id") (some "a") [])) ∧
    (find_child (prop_entry "a" (Node.mk (_tag "foo") none [])) (_tag "formula") =
      some (Node.mk (_tag "formula") none [Node.mk (_tag "foo") none []])) ∧
    (ExtractMCC.translate_formula_node
        (Node.mk (_tag "formula") none [Node.mk (_tag "foo") none []])
        Interner.empty =
      (.error (.translationError ("Unknown or unhandled XML tag: " ++ _tag "foo")),
        Interner.empty)) ∧
    ExtractMCC.extract_properties_go
        [prop_entry "a" (Node.mk (_tag "foo") none [])] [] Interner.empty =
      ExtractMCC.extract_properties_go [] [] Interner.empty := by
  have hid : find_child (prop_entry "a" (Node.mk (_tag "foo") none [])) (_tag "id") =
      some (Node.mk (_tag "id") (some "a") []) := by
    simp [prop_entry, find_child, Node.children, Node.tag, List.find?]
  have hfn : find_child (prop_entry "a" (Node.mk (_tag "foo") none []))
      (_tag "formula") =
      some (Node.mk (_tag "formula") none [Node.mk (_tag "foo") none []]) := by
    simp [prop_entry, find_child, Node.children, Node.tag, List.find?,
      _tag, MCC_NAMESPACE]
  have htr : ExtractMCC.translate_formula_node
      (Node.mk (_tag "formula") none [Node.mk (_tag "foo") none []])
      Interner.empty =
      (.error (.translationError ("Unknown or unhandled XML tag: " ++ _tag "foo")),
        Interner.empty) := by
    rw [ExtractMCC.tfn_wrapper _ _ _ _ _ (by decide) (by decide) (by decide)
      (by decide) (by decide) (by decide) (by decide) (by decide)]
    exact ExtractMCC.tfn_leaf _ _ _ (by decide) (by decide) (by decide) (by decide)
      (by decide) (by decide) (by decide) (by decide)
  refine ⟨by decide, by decide, ?_, hid, hfn, htr, ?_⟩
  · exact claim_C4_amended.1 (fire "t1") Interner.empty (_tag "foo") none none
      (by decide) (by decide)
  · exact claim_C4_amended.2 _ _ _ [] [] _ _ _ hid hfn htr

/-- Claim C2: over any sequence of intern calls in one session, equal
canonical serializations get the same symbol and distinct serializations get
distinct symbols; no symbol is ever bound to two distinct canonical keys;
the binding at table position k carries the symbol `p(k)` (so the (k+1)-st
distinct subtree encountered is assigned `p(k)`); and the counter is
monotone over the call sequence. -/
theorem claim_C2 (calls : List Node) (i j : Nat) (hi : i < calls.length)
    (hj : j < calls.length) :
    (tostring calls[i] = tostring calls[j] →
      (ExtractMCC.intern_results Interner.empty calls)[i]? =
        (ExtractMCC.intern_results Interner.empty calls)[j]?) ∧
    (tostring calls[i] ≠ tostring calls[j] →
      (ExtractMCC.intern_results Interner.empty calls)[i]? ≠
        (ExtractMCC.intern_results Interner.empty calls)[j]?) ∧
    (∀ (k1 k2 v : String),
      (k1, v) ∈ (ExtractMCC.run_intern Interner.empty calls).propositions_map →
      (k2, v) ∈ (ExtractMCC.run_intern Interner.empty calls).propositions_map →
      k1 = k2) ∧
    (∀ (k : Nat)
      (hk : k < (ExtractMCC.run_intern Interner.empty calls).propositions_map.length),
      ((ExtractMCC.run_intern Interner.empty calls).propositions_map[k]).2 =
        "p" ++ toString k) ∧
    (∀ m : Nat,
      (ExtractMCC.run_intern Interner.empty (calls.take m)).prop_counter ≤
        (ExtractMCC.run_intern Interner.empty (calls.take (m + 1))).prop_counter) := by
  have hwf : ExtractMCC.Wf (ExtractMCC.run_intern Interner.empty calls) :=
    ExtractMCC.wf_run_intern ExtractMCC.wf_empty calls
  have hlook_i := ExtractMCC.intern_results_lookup calls Interner.empty i hi
  have hlook_j := ExtractMCC.intern_results_lookup calls Interner.empty j hj
  have hlen := ExtractMCC.intern_results_length Interner.empty calls
  refine ⟨?_, ?_, ?_, ?_, ?_⟩
  · intro heq
    rw [hlook_i, hlook_j, heq]
  · intro hne hcontra
    have hlen_i : i < (ExtractMCC.intern_results Interner.empty calls).length := by
      omega
    have hlen_j : j < (ExtractMCC.intern_results Interner.empty calls).length := by
      omega
    have hsome_i : (ExtractMCC.intern_results Interner.empty calls)[i]? =
        some ((ExtractMCC.intern_results Interner.empty calls)[i]) :=
      List.getElem?_eq_getElem hlen_i
    have hsome_j : (ExtractMCC.intern_results Interner.empty calls)[j]? =
        some ((ExtractMCC.intern_results Interner.empty calls)[j]) :=
      List.getElem?_eq_getElem hlen_j
    have hvij : ((ExtractMCC.intern_results Interner.empty calls)[i]) =
        ((ExtractMCC.intern_results Interner.empty calls)[j]) := by
      have := hcontra
      rw [hsome_i, hsome_j] at this
      exact Option.some.inj this
    have hmem_i : (tostring calls[i],
        (ExtractMCC.intern_results Interner.empty calls)[i]) ∈
        (ExtractMCC.run_intern Interner.empty calls).propositions_map := by
      apply dict_find?_mem
      rw [← hlook_i, hsome_i]
    have hmem_j : (tostring calls[j],
        (ExtractMCC.intern_results Interner.empty calls)[j]) ∈
        (ExtractMCC.run_intern Interner.empty calls).propositions_map := by
      apply dict_find?_mem
      rw [← hlook_j, hsome_j]
    rw [hvij] at hmem_i
    exact hne (ExtractMCC.wf_value_inj hwf hmem_i hmem_j)
  · intro k1 k2 v hm1 hm2
    exact ExtractMCC.wf_value_inj hwf hm1 hm2
  · exact hwf.2.1
  · intro m
    by_cases hm : m < calls.length
    · rw [List.take_succ, ExtractMCC.run_intern_append]
      exact ExtractMCC.run_intern_counter_le _ _
    · have h1 : calls.take m = calls := List.take_of_length_le (by omega)
      have h2 : calls.take (m + 1) = calls := List.take_of_length_le (by omega)
      rw [h1, h2]

/-- Witness for C2 on the call sequence
`[is-fireable(t1), is-fireable(t2), is-fireable(t1)]` at positions 0 and 2. -/
theorem claim_C2_witness :
    (0 < ([fire "t1", fire "t2", fire "t1"] : List Node).length) ∧
    (2 < ([fire "t1", fire "t2", fire "t1"] : List Node).length) ∧
    ((tostring ([fire "t1", fire "t2", fire "t1"] : List Node)[0] =
        tostring ([fire "t1", fire "t2", fire "t1"] : List Node)[2] →
      (ExtractMCC.intern_results Interner.empty [fire "t1", fire "t2", fire "t1"])[0]? =
        (ExtractMCC.intern_results Interner.empty [fire "t1", fire "t2", fire "t1"])[2]?) ∧
    (tostring ([fire "t1", fire "t2", fire "t1"] : List Node)[0] ≠
        tostring ([fire "t1", fire "t2", fire "t1"] : List Node)[2] →
      (ExtractMCC.intern_results Interner.empty [fire "t1", fire "t2", fire "t1"])[0]? ≠
        (ExtractMCC.intern_results Interner.empty [fire "t1", fire "t2", fire "t1"])[2]?) ∧
    (∀ (k1 k2 v : String),
      (k1, v) ∈ (ExtractMCC.run_intern Interner.empty
        [fire "t1", fire "t2", fire "t1"]).propositions_map →
      (k2, v) ∈ (ExtractMCC.run_intern Interner.empty
        [fire "t1", fire "t2", fire "t1"]).propositions_map →
      k1 = k2) ∧
    (∀ (k : Nat)
      (hk : k < (ExtractMCC.run_intern Interner.empty
        [fire "t1", fire "t2", fire "t1"]).propositions_map.length),
      ((ExtractMCC.run_intern Interner.empty
        [fire "t1", fire "t2", fire "t1"]).propositions_map[k]).2 =
        "p" ++ toString k) ∧
    (∀ m : Nat,
      (ExtractMCC.run_intern Interner.empty
        (([fire "t1", fire "t2", fire "t1"] : List Node).take m)).prop_counter ≤
        (ExtractMCC.run_intern Interner.empty
          (([fire "t1", fire "t2", fire "t1"] : List Node).take (m + 1))).prop_counter)) :=
  ⟨by decide, by decide,
    claim_C2 [fire "t1", fire "t2", fire "t1"] 0 2 (by decide) (by decide)⟩

/-- Claim C8 counterexample: a document with two property entries sharing
the id `x`, both of which translate successfully (to `p0` and `p1`), yields
a single-element result dictionary — the second translation overwrites the
first in place — so the i-th result does not correspond to the i-th
successfully translated entry for all documents. -/
theorem claim_C8_counterexample :
    (ExtractMCC.insertions
        [prop_entry "x" (fire "t1"), prop_entry "x" (fire "t2")] Interner.empty =
      (.ok [(some "x", "p0"), (some "x", "p1")],
        ⟨[(tostring (fire "t1"), "p0"), (tostring (fire "t2"), "p1")], 2⟩)) ∧
    (ExtractMCC.extract_properties_from_file
        [prop_entry "x" (fire "t1"), prop_entry "x" (fire "t2")] Interner.empty =
      (.ok [(some "x", "p1")],
        ⟨[(tostring (fire "t1"), "p0"), (tostring (fire "t2"), "p1")], 2⟩)) ∧
    ([(some "x", "p1")] : List (Option String × String)).length ≠ 2 := by
  have hid1 : find_child (prop_entry "x" (fire "t1")) (_tag "id") =
      some (Node.mk (_tag "id") (some "x") []) := by
    simp [prop_entry, find_child, fire, Node.children, Node.tag, List.find?]
  have hfn1 : find_child (prop_entry "x" (fire "t1")) (_tag "formula") =
      some (Node.mk (_tag "formula") none [fire "t1"]) := by
    simp [prop_entry, find_child, fire, Node.children, Node.tag, List.find?,
      _tag, MCC_NAMESPACE]
  have hid2 : find_child (prop_entry "x" (fire "t2")) (_tag "id") =
      some (Node.mk (_tag "id") (some "x") []) := by
    simp [prop_entry, find_child, fire, Node.children, Node.tag, List.find?]
  have hfn2 : find_child (prop_entry "x" (fire "t2")) (_tag "formula") =
      some (Node.mk (_tag "formula") none [fire "t2"]) := by
    simp [prop_entry, find_child, fire, Node.children, Node.tag, List.find?,
      _tag, MCC_NAMESPACE]
  have htr1 : ExtractMCC.translate_formula_node
      (Node.mk (_tag "formula") none [fire "t1"]) Interner.empty =
      (.ok "p0", ⟨[(tostring (fire "t1"), "p0")], 1⟩) := by
    rw [ExtractMCC.tfn_wrapper _ _ _ _ _ (by decide) (by decide) (by decide)
      (by decide) (by decide) (by decide) (by decide) (by decide)]
    simp only [fire]
    simp only [ExtractMCC.tfn_atomic _ _ _ _ (Or.inr (Or.inl rfl))]
    simp [ExtractMCC._get_prop_id, Interner.empty, dict_find?, tostring,
      tostring_list, _tag, MCC_NAMESPACE, Node.tag, Node.children, Node.text]
    decide
  have htr2 : ExtractMCC.translate_formula_node
      (Node.mk (_tag "formula") none [fire "t2"]) ⟨[(tostring (fire "t1"), "p0")], 1⟩ =
      (.ok "p1",
        ⟨[(tostring (fire "t1"), "p0"), (tostring (fire "t2"), "p1")], 2⟩) := by
    rw [ExtractMCC.tfn_wrapper _ _ _ _ _ (by decide) (by decide) (by decide)
      (by decide) (by decide) (by decide) (by decide) (by decide)]
    simp only [fire]
    simp only [ExtractMCC.tfn_atomic _ _ _ _ (Or.inr (Or.inl rfl))]
    simp [ExtractMCC._get_prop_id, Interner.empty, dict_find?, tostring,
      tostring_list, _tag, MCC_NAMESPACE, Node.tag, Node.children, Node.text]
    decide
  refine ⟨?_, ?_, by simp⟩
  · exact ExtractMCC.insertions_cons_ok_pair hid1 hfn1 htr1
      (ExtractMCC.insertions_cons_ok_pair hid2 hfn2 htr2
        (ExtractMCC.insertions_nil _))
  · rw [ExtractMCC.extract_properties_from_file,
      ExtractMCC.extract_go_cons_ok hid1 hfn1 htr1,
      ExtractMCC.extract_go_cons_ok hid2 hfn2 htr2,
      ExtractMCC.extract_go_nil]
    rfl

/-- Claim C8 as amended: when the successfully translated entries of a
document carry pairwise distinct ids, the driver result is exactly the
ordered insertion sequence — the i-th result corresponds to the i-th
successfully translated property entry; entries that share an id collapse
into a single dictionary slot instead. -/
theorem claim_C8_amended (props : List Node) (st st' : Interner)
    (l : List (Option String × String))
    (hins : ExtractMCC.insertions props st = (.ok l, st'))
    (hnodup : (l.map Prod.fst).Nodup) :
    ExtractMCC.extract_properties_from_file props st = (.ok l, st') := by
  rw [ExtractMCC.extract_properties_from_file, ExtractMCC.extract_go_eq_insertions,
    hins]
  dsimp only
  have := foldl_dict_insert_nodup l ([] : List (Option String × String))
    (by simpa using hnodup)
  rw [this]
  simp

/-- Witness for the amended C8 on a two-entry document with distinct ids. -/
theorem claim_C8_amended_witness :
    (ExtractMCC.insertions
        [prop_entry "x" (fire "t1"), prop_entry "y" (fire "t2")] Interner.empty =
      (.ok [(some "x", "p0"), (some "y", "p1")],
        ⟨[(tostring (fire "t1"), "p0"), (tostring (fire "t2"), "p1")], 2⟩)) ∧
    (([(some "x", "p0"), (some "y", "p1")].map
        (Prod.fst (α := Option String) (β := String))).Nodup) ∧
    ExtractMCC.extract_properties_from_file
        [prop_entry "x" (fire "t1"), prop_entry "y" (fire "t2")] Interner.empty =
      (.ok [(some "x", "p0"), (some "y", "p1")],
        ⟨[(tostring (fire "t1"), "p0"), (tostring (fire "t2"), "p1")], 2⟩) := by
  have hid1 : find_child (prop_entry "x" (fire "t1")) (_tag "id") =
      some (Node.mk (_tag "id") (some "x") []) := by
    simp [prop_entry, find_child, fire, Node.children, Node.tag, List.find?]
  have hfn1 : find_child (prop_entry "x" (fire "t1")) (_tag "formula") =
      some (Node.mk (_tag "formula") none [fire "t1"]) := by
    simp [prop_entry, find_child, fire, Node.children, Node.tag, List.find?,
      _tag, MCC_NAMESPACE]
  have hid2 : find_child (prop_entry "y" (fire "t2")) (_tag "id") =
      some (Node.mk (_tag "id") (some "y") []) := by
    simp [prop_entry, find_child, fire, Node.children, Node.tag, List.find?]
  have hfn2 : find_child (prop_entry "y" (fire "t2")) (_tag "formula") =
      some (Node.mk (_tag "formula") none [fire "t2"]) := by
    simp [prop_entry, find_child, fire, Node.children, Node.tag, List.find?,
      _tag, MCC_NAMESPACE]
  have htr1 : ExtractMCC.translate_formula_node
      (Node.mk (_tag "formula") none [fire "t1"]) Interner.empty =
      (.ok "p0", ⟨[(tostring (fire "t1"), "p0")], 1⟩) := by
    rw [ExtractMCC.tfn_wrapper _ _ _ _ _ (by decide) (by decide) (by decide)
      (by decide) (by decide) (by decide) (by decide) (by decide)]
    simp only [fire]
    simp only [ExtractMCC.tfn_atomic _ _ _ _ (Or.inr (Or.inl rfl))]
    simp [ExtractMCC._get_prop_id, Interner.empty, dict_find?, tostring,
      tostring_list, _tag, MCC_NAMESPACE, Node.tag, Node.children, Node.text]
    decide
  have htr2 : ExtractMCC.translate_formula_node
      (Node.mk (_tag "formula") none [fire "t2"]) ⟨[(tostring (fire "t1"), "p0")], 1⟩ =
      (.ok "p1",
        ⟨[(tostring (fire "t1"), "p0"), (tostring (fire "t2"), "p1")], 2⟩) := by
    rw [ExtractMCC.tfn_wrapper _ _ _ _ _ (by decide) (by decide) (by decide)
      (by decide) (by decide) (by decide) (by decide) (by decide)]
    simp only [fire]
    simp only [ExtractMCC.tfn_atomic _ _ _ _ (Or.inr (Or.inl rfl))]
    simp [ExtractMCC._get_prop_id, Interner.empty, dict_find?, tostring,
      tostring_list, _tag, MCC_NAMESPACE, Node.tag, Node.children, Node.text]
    decide
  have hins : ExtractMCC.insertions
      [prop_entry "x" (fire "t1"), prop_entry "y" (fire "t2")] Interner.empty =
      (.ok [(some "x", "p0"), (some "y", "p1")],
        ⟨[(tostring (fire "t1"), "p0"), (tostring (fire "t2"), "p1")], 2⟩) :=
    ExtractMCC.insertions_cons_ok_pair hid1 hfn1 htr1
      (ExtractMCC.insertions_cons_ok_pair hid2 hfn2 htr2
        (ExtractMCC.insertions_nil _))
  exact ⟨hins, by decide, claim_C8_amended _ _ _ _ hins (by decide)⟩

/-- Claim C9: in the keyword (`lola_compatible`) configuration the driver
appends the terminator `:` to the stored translation of every entry except
the entry at the last position of the document (the condition is positional:
`i < len(prop_nodes) - 1`, which holds exactly when entries follow); in
particular a single-entry document is stored without a terminator. -/
theorem claim_C9 :
    (∀ (pre post : List Node) (p idn fn : Node) (s : String)
        (lpre : List (Option String × String)),
      find_child p (_tag "id") = some idn →
      find_child p (_tag "formula") = some fn →
      PrepareDataset.translate_formula_node PrepareDataset.lola_config fn = .ok s →
      PrepareDataset.insertions PrepareDataset.lola_config
          (pre ++ p :: post).length 0 pre = .ok lpre →
      PrepareDataset.insertions PrepareDataset.lola_config
          (pre ++ p :: post).length 0 (pre ++ p :: post) =
        (match PrepareDataset.insertions PrepareDataset.lola_config
            (pre ++ p :: post).length (pre.length + 1) post with
          | .ok lpost =>
              .ok (lpre ++ (idn.text,
                if pre.length < (pre ++ p :: post).length - 1 then s ++ ":" else s)
                :: lpost)
          | .error e => .error e)) ∧
    (∀ (pre post : List Node) (p : Node),
      pre.length < (pre ++ p :: post).length - 1 ↔ post ≠ []) ∧
    (∀ (p idn fn : Node) (s : String),
      find_child p (_tag "id") = some idn →
      find_child p (_tag "formula") = some fn →
      PrepareDataset.translate_formula_node PrepareDataset.lola_config fn = .ok s →
      PrepareDataset.extract_properties_from_file PrepareDataset.lola_config [p] =
        .ok [(idn.text, s)]) := by
  refine ⟨?_, ?_, ?_⟩
  · intro pre post p idn fn s lpre hid hfn htr hpre
    rw [PrepareDataset.insertions_append, hpre]
    dsimp only
    rw [Nat.zero_add]
    rw [PrepareDataset.p_insertions_cons_ok _ _ hid hfn htr]
    cases hpost : PrepareDataset.insertions PrepareDataset.lola_config
        (pre ++ p :: post).length (pre.length + 1) post with
    | ok lpost => simp [PrepareDataset.lola_config]
    | error e => simp
  · intro pre post p
    cases post with
    | nil => simp [List.length_append]
    | cons b bs =>
      simp [List.length_append]
  · intro p idn fn s hid hfn htr
    rw [PrepareDataset.extract_properties_from_file,
      PrepareDataset.p_extract_go_cons_ok _ _ hid hfn htr,
      PrepareDataset.p_extract_go_nil]
    simp [dict_insert]

/-- Witness for C9: a two-entry document where the first stored translation
gets the terminator, and a single-entry document stored without one. -/
theorem claim_C9_witness :
    (find_child (prop_entry "q" (tc_place "s1")) (_tag "id") =
      some (Node.mk (_tag "id") (some "q") [])) ∧
    (find_child (prop_entry "q" (tc_place "s1")) (_tag "formula") =
      some (Node.mk (_tag "formula") none [tc_place "s1"])) ∧
    (PrepareDataset.translate_formula_node PrepareDataset.lola_config
      (Node.mk (_tag "formula") none [tc_place "s1"]) = .ok "s1") ∧
    (PrepareDataset.insertions PrepareDataset.lola_config
        (([] ++ prop_entry "q" (tc_place "s1") :: [prop_entry "r" (tc_place "s2")]
          : List Node)).length 0
        ([] ++ prop_entry "q" (tc_place "s1") :: [prop_entry "r" (tc_place "s2")]) =
      (match PrepareDataset.insertions PrepareDataset.lola_config
          (([] ++ prop_entry "q" (tc_place "s1") :: [prop_entry "r" (tc_place "s2")]
            : List Node)).length
          (List.length ([] : List Node) + 1) [prop_entry "r" (tc_place "s2")] with
        | .ok lpost =>
            .ok ([] ++ ((Node.mk (_tag "id") (some "q") []).text,
              if List.length ([] : List Node) <
                  (([] ++ prop_entry "q" (tc_place "s1")
                    :: [prop_entry "r" (tc_place "s2")] : List Node)).length - 1
              then "s1" ++ ":" else "s1") :: lpost)
        | .error e => .error e)) ∧
    PrepareDataset.extract_properties_from_file PrepareDataset.lola_config
        [prop_entry "q" (tc_place "s1")] =
      .ok [((Node.mk (_tag "id") (some "q") []).text, "s1")] := by
  have hid : find_child (prop_entry "q" (tc_place "s1")) (_tag "id") =
      some (Node.mk (_tag "id") (some "q") []) := by
    simp [prop_entry, find_child, tc_place, Node.children, Node.tag, List.find?]
  have hfn : find_child (prop_entry "q" (tc_place "s1")) (_tag "formula") =
      some (Node.mk (_tag "formula") none [tc_place "s1"]) := by
    simp [prop_entry, find_child, tc_place, Node.children, Node.tag, List.find?,
      _tag, MCC_NAMESPACE]
  have htr : PrepareDataset.translate_formula_node PrepareDataset.lola_config
      (Node.mk (_tag "formula") none [tc_place "s1"]) = .ok "s1" := by
    rw [PrepareDataset.ptfn_wrapper _ _ _ _ _ (by decide) (by decide) (by decide)
      (by decide) (by decide) (by decide) (by decide) (by decide) (by decide)
      (by decide) (by decide)]
    simp only [tc_place, PrepareDataset.ptfn_tokens_count, PrepareDataset.ptfn_place]
    rfl
  refine ⟨hid, hfn, htr, ?_, ?_⟩
  · exact claim_C9.1 [] [prop_entry "r" (tc_place "s2")]
      (prop_entry "q" (tc_place "s1")) _ _ _ [] hid hfn htr
      (PrepareDataset.p_insertions_nil _ _ _)
  · exact claim_C9.2.2 (prop_entry "q" (tc_place "s1")) _ _ _ hid hfn htr

end CTLTool
